import Mathlib

/-!
Verification of the editing core of `terminal-notepad-rs`
(`src/note/src/{buffer,history,cursor,screen,editor}.rs`), as a shallow
embedding: `Vec<T>` becomes `List T`, `usize` becomes `Nat` (subtractions
that can underflow in Rust are noted at each site), fallible operations
return `Option`, and in-place mutation becomes explicit state passing.
The `History` stack is represented with its most recent entry at the head
of the list (Rust pushes/pops at the end of a `Vec`; only the stack
discipline is observable).
-/

namespace Note

/-- `editor.rs`: `SelectMode` — contiguous (`None`) vs rectangular selection. -/
inductive SelectMode where
  | None
  | Rectangle
deriving DecidableEq, Repr

/-- `buffer.rs`: `TAB_STOP`. -/
def TAB_STOP : Nat := 8

/-- Abridged East-Asian-Wide/Fullwidth table of the `unicode-width` crate:
`ch.width_cjk()` returns `Some 2` exactly on these ranges (the claims only
use that CJK-wide scalars are width 2). -/
def isWideCJK (c : Char) : Bool :=
  let n := c.toNat
  (0x1100 ≤ n && n ≤ 0x115F) ||
  (0x2E80 ≤ n && n ≤ 0x303E) ||
  (0x3041 ≤ n && n ≤ 0x33FF) ||
  (0x3400 ≤ n && n ≤ 0x4DBF) ||
  (0x4E00 ≤ n && n ≤ 0x9FFF) ||
  (0xA000 ≤ n && n ≤ 0xA4CF) ||
  (0xAC00 ≤ n && n ≤ 0xD7A3) ||
  (0xF900 ≤ n && n ≤ 0xFAFF) ||
  (0xFE30 ≤ n && n ≤ 0xFE4F) ||
  (0xFF00 ≤ n && n ≤ 0xFF60) ||
  (0xFFE0 ≤ n && n ≤ 0xFFE6) ||
  (0x20000 ≤ n && n ≤ 0x2FFFD) ||
  (0x30000 ≤ n && n ≤ 0x3FFFD)

/-- Abridged zero-width table of `unicode-width` (`width_cjk() = Some 0`:
combining marks, zero-width spaces/joiners, variation selectors). -/
def isZeroWidth (c : Char) : Bool :=
  let n := c.toNat
  (0x0300 ≤ n && n ≤ 0x036F) ||
  (0x200B ≤ n && n ≤ 0x200F) ||
  (0xFE00 ≤ n && n ≤ 0xFE0F)

/-- `buffer.rs`: `char_width(ch) = ch.width_cjk().unwrap_or(1)`. -/
def charWidth (c : Char) : Nat :=
  if isWideCJK c then 2 else if isZeroWidth c then 0 else 1

/-- `buffer.rs`: `Row` — one line, a sequence of Unicode scalar values. -/
structure Row where
  column : List Char
deriving DecidableEq, Repr

instance : Inhabited Row := ⟨⟨[]⟩⟩

namespace Row

/-- `Row::append`. -/
def append (r : Row) (other : List Char) : Row := ⟨r.column ++ other⟩

/-- `Row::len`. -/
def len (r : Row) : Nat := r.column.length

/-- `Row::is_empty`. -/
def isEmpty (r : Row) : Bool := r.column.isEmpty

/-- `Row::insert` — `Vec::insert` guarded by `index <= len` (in-bounds
splice; the guard makes the out-of-bounds case a no-op). -/
def insert (r : Row) (index : Nat) (ch : Char) : Row :=
  if index ≤ r.column.length then
    ⟨r.column.take index ++ ch :: r.column.drop index⟩
  else r

/-- `Row::insert_slice` — `split_off` then extend, guarded by `index <= len`. -/
def insertSlice (r : Row) (index : Nat) (other : List Char) : Row :=
  if index ≤ r.column.length then
    ⟨r.column.take index ++ other ++ r.column.drop index⟩
  else r

/-- `Row::remove` — `Vec::remove` guarded by `index < len`; returns the
removed character. -/
def remove (r : Row) (index : Nat) : Option (Char × Row) :=
  match r.column[index]? with
  | some ch => some (ch, ⟨r.column.take index ++ r.column.drop (index + 1)⟩)
  | none => none

/-- `Row::remove_range` — `Vec::drain(s..e)` guarded by `e <= len`; returns
the drained characters and the remaining row.  (`drain` additionally
requires `s ≤ e` in Rust — it panics otherwise; every verified call site
satisfies it.) -/
def removeRange (r : Row) (s e : Nat) : Option (List Char × Row) :=
  if e ≤ r.column.length then
    some ((r.column.take e).drop s, ⟨r.column.take s ++ r.column.drop e⟩)
  else none

/-- `Row::replace` — remove `length` chars at `index`, then insert `other`
there; returns the removed characters. -/
def replace (r : Row) (index length : Nat) (other : List Char) :
    Option (List Char × Row) :=
  match r.removeRange index (index + length) with
  | some (removed, r') => some (removed, r'.insertSlice index other)
  | none => none

/-- `Row::split_off` — `Vec::split_off(at)`; keeps the prefix, returns the
tail.  (Rust panics when `at > len`; every verified call site is guarded.) -/
def splitOff (r : Row) (at_ : Nat) : Row × Row :=
  (⟨r.column.take at_⟩, ⟨r.column.drop at_⟩)

/-- `Row::to_string_at` — the characters from index `at` on. -/
def toStringAt (r : Row) (at_ : Nat) : List Char := r.column.drop at_

/-- `Row::rev_at` — the first `at` characters, reversed. -/
def revAt (r : Row) (at_ : Nat) : Row := ⟨(r.column.take at_).reverse⟩

/-- `Row::width_range` body: fold of the tab-stop/char-width rule over a
character list, starting from accumulated render width `render`. -/
def widthFold (render : Nat) : List Char → Nat
  | [] => render
  | ch :: rest =>
      if ch = '\t' then
        widthFold (render + (TAB_STOP - render % TAB_STOP)) rest
      else
        widthFold (render + charWidth ch) rest

/-- `Row::width_range(0..e)` restricted to prefix ranges (the only form the
claims use): visual width of the first `e` characters. -/
def widthRange (r : Row) (e : Nat) : Nat := widthFold 0 (r.column.take e)

/-- `Row::width`. -/
def width (r : Row) : Nat := r.widthRange r.column.length

/-- `Row::last_char_width`. -/
def lastCharWidth (r : Row) : Nat :=
  match r.column.getLast? with
  | some ch => charWidth ch
  | none => 0

end Row

/-- `history.rs`: `Operation` — a self-contained reversible edit record
(coordinates are `(x, y)`). -/
inductive Operation where
  | Append (cord : Nat × Nat)
  | DeleteChar (cord : Nat × Nat) (ch : Char)
  | DeleteChars (cord : Nat × Nat) (rows : List Row) (mode : SelectMode)
  | DeleteRow (cord : Nat × Nat) (row : Row)
  | InsertChar (cord : Nat × Nat)
  | InsertChars (cord : Nat × Nat) (endc : Nat × Nat) (mode : SelectMode)
  | InsertRow (cord : Nat × Nat)
  | Replace (cord : Nat × Nat) (length : Nat) (row : Row)
  | ShrinkRow (cord : Nat × Nat) (row : Row)
  | SplitRow (cord : Nat × Nat)
  | SquashRow (cord : Nat × Nat)
deriving DecidableEq, Repr

/-- `buffer.rs`: `Buffer` — rows, optional file name, dirty flag (`cached`),
queued redraw ranges (`updated`, half-open row ranges), undo log, and the
pending clipboard slot.  The history list keeps its most recent entry at
the head. -/
structure Buffer where
  rows : List Row := []
  filename : Option String := none
  cached : Bool := false
  updated : List (Nat × Nat) := []
  history : List ((Nat × Nat) × Operation) := []
  pending : Option (List Row × SelectMode) := none
deriving DecidableEq, Repr

namespace Buffer

/-- `Buffer::rows()`. -/
def rowsLen (b : Buffer) : Nat := b.rows.length

/-- `Buffer::get`. -/
def get (b : Buffer) (index : Nat) : Option Row := b.rows[index]?

/-- `Buffer::row_char_len`. -/
def rowCharLen (b : Buffer) (at_ : Nat × Nat) : Nat :=
  match b.rows[at_.2]? with
  | some r => r.len
  | none => 0

/-- `Buffer::cached()`. -/
def cachedF (b : Buffer) : Bool := b.cached

/-- `Buffer::updated()`. -/
def updatedF (b : Buffer) : Bool := !b.updated.isEmpty

/-- `Buffer::row_updated`. -/
def rowUpdated (b : Buffer) (row : Nat) : Bool :=
  b.updated.any fun r => r.1 ≤ row && row < r.2

/-- `History::record` (`Vec::push`; head of our list = top of the stack). -/
def record (b : Buffer) (cursor : Nat × Nat) (op : Operation) : Buffer :=
  { b with history := (cursor, op) :: b.history }

end Buffer

/-- `screen.rs`: `Screen` — the viewport rectangle over the buffer, plus the
force-redraw flag. -/
structure Screen where
  left0 : Nat := 0
  top0 : Nat := 0
  height : Nat := 0
  width : Nat := 0
  updated : Bool := false
deriving DecidableEq, Repr

namespace Screen

/-- `Screen::bottom` — `top0 + (height - 1)`. -/
def bottom (s : Screen) : Nat := s.top0 + (s.height - 1)

/-- `Screen::right` — `left0 + (width - 1)`. -/
def right (s : Screen) : Nat := s.left0 + (s.width - 1)

end Screen

/-- `cursor.rs`: `Cursor` — logical `(x, y)` character coordinates. -/
structure Cursor where
  x0 : Nat := 0
  y0 : Nat := 0
deriving DecidableEq, Repr

namespace Cursor

/-- `AsCoordinates for Cursor`. -/
def asCoordinates (c : Cursor) : Nat × Nat := (c.x0, c.y0)

/-- `Cursor::move_to_xmax_ifoverflow`. -/
def moveToXmaxIfoverflow (c : Cursor) (content : Buffer) : Cursor :=
  if content.rowCharLen (c.x0, c.y0) < c.x0 then
    { c with x0 := content.rowCharLen (c.x0, c.y0) }
  else c

/-- `Cursor::move_to_ymax_ifoverflow`. -/
def moveToYmaxIfoverflow (c : Cursor) (content : Buffer) : Cursor :=
  if content.rowsLen < c.y0 then { c with y0 := content.rowsLen } else c

/-- `Cursor::move_down` (returns the new cursor and whether it moved). -/
def moveDown (c : Cursor) (content : Buffer) : Cursor × Bool :=
  let c' :=
    if c.y0 < content.rowsLen then
      ({ c with y0 := c.y0 + 1 } : Cursor).moveToXmaxIfoverflow content
    else c
  (c', c ≠ c')

/-- `Cursor::move_up`. -/
def moveUp (c : Cursor) (content : Buffer) : Cursor × Bool :=
  let c' :=
    if 0 < c.y0 then
      ({ c with y0 := c.y0 - 1 } : Cursor).moveToXmaxIfoverflow content
    else c
  (c', c ≠ c')

/-- `Cursor::move_left`. -/
def moveLeft (c : Cursor) (content : Buffer) : Cursor × Bool :=
  let c' :=
    if 0 < c.x0 then { c with x0 := c.x0 - 1 }
    else if 0 < c.y0 then
      let c1 : Cursor := { c with y0 := c.y0 - 1 }
      { c1 with x0 := content.rowCharLen (c1.x0, c1.y0) }
    else c
  (c', c ≠ c')

/-- `Cursor::move_right`. -/
def moveRight (c : Cursor) (content : Buffer) : Cursor × Bool :=
  let c' :=
    if c.x0 < content.rowCharLen (c.x0, c.y0) then { c with x0 := c.x0 + 1 }
    else if c.y0 < content.rowsLen then { c with y0 := c.y0 + 1, x0 := 0 }
    else c
  (c', c ≠ c')

/-- `Cursor::render` — logical to visual coordinates. -/
def render (c : Cursor) (content : Buffer) : Nat × Nat :=
  match content.get c.y0 with
  | some row => (row.widthRange c.x0, c.y0)
  | none => (0, content.rowsLen)

/-- First `while` of `Cursor::move_render_to_x`: step right while strictly
before the target render column (fuel = row length bounds the loop). -/
def renderForward (row : Row) (render : Nat) (x : Nat) : Nat :=
  if x < row.len ∧ row.widthRange x < render then renderForward row render (x + 1)
  else x
termination_by row.len - x
decreasing_by omega

/-- Second `while` of `Cursor::move_render_to_x`: step back while past the
target render column. -/
def renderBackward (row : Row) (render : Nat) (x : Nat) : Nat :=
  if 0 < x ∧ x ≤ row.len ∧ render < row.widthRange x then
    renderBackward row render (x - 1)
  else x
termination_by x
decreasing_by omega

/-- `Cursor::move_render_to_x`. -/
def moveRenderToX (c : Cursor) (content : Buffer) (render : Nat) : Cursor :=
  match content.get c.y0 with
  | some row => { c with x0 := renderBackward row render (renderForward row render c.x0) }
  | none => c

/-- `Cursor::move_down_render`. -/
def moveDownRender (c : Cursor) (content : Buffer) : Cursor × Bool :=
  let c1 := (c.moveDown content).1
  let c' := c1.moveRenderToX content (c.render content).1
  (c', c ≠ c')

/-- `Cursor::move_up_render`. -/
def moveUpRender (c : Cursor) (content : Buffer) : Cursor × Bool :=
  let c1 := (c.moveUp content).1
  let c' := c1.moveRenderToX content (c.render content).1
  (c', c ≠ c')

/-- `Cursor::move_down_screen`. -/
def moveDownScreen (c : Cursor) (content : Buffer) (screen : Screen) : Cursor × Bool :=
  let c1 : Cursor := { c with y0 := c.y0 + screen.height }
  let c' := (c1.moveToYmaxIfoverflow content).moveToXmaxIfoverflow content
  (c', c ≠ c')

/-- `Cursor::move_up_screen`. -/
def moveUpScreen (c : Cursor) (content : Buffer) (screen : Screen) : Cursor × Bool :=
  let c1 : Cursor :=
    { c with y0 := if screen.height < c.y0 then c.y0 - screen.height else 0 }
  let c' := c1.moveToXmaxIfoverflow content
  (c', c ≠ c')

/-- `Cursor::move_to_x0`. -/
def moveToX0 (c : Cursor) : Cursor × Bool :=
  let c' : Cursor := { c with x0 := 0 }
  (c', c ≠ c')

/-- `Cursor::move_to_xmax`. -/
def moveToXmax (c : Cursor) (content : Buffer) : Cursor × Bool :=
  let c' : Cursor := { c with x0 := content.rowCharLen (c.x0, c.y0) }
  (c', c ≠ c')

/-- `Cursor::set_x`. -/
def setX (c : Cursor) (content : Buffer) (x : Nat) : Cursor × Bool :=
  let c' := ({ c with x0 := x } : Cursor).moveToXmaxIfoverflow content
  (c', c ≠ c')

/-- `Cursor::set_y`. -/
def setY (c : Cursor) (content : Buffer) (y : Nat) : Cursor × Bool :=
  let c' := (({ c with y0 := y } : Cursor).moveToYmaxIfoverflow content).moveToXmaxIfoverflow content
  (c', c ≠ c')

/-- `Cursor::set` — `set_y` then `set_x`. -/
def set (c : Cursor) (content : Buffer) (at_ : Nat × Nat) : Cursor × Bool :=
  let (c1, m1) := c.setY content at_.2
  let (c2, m2) := c1.setX content at_.1
  (c2, m1 || m2)

end Cursor

/-- `editor.rs`: `Select` — anchor/focus pair, mode, previous focus,
`enabled` and `updated` flags. -/
structure Select where
  mode : SelectMode := .None
  range : Option (Cursor × Cursor) := none
  previous : Option Cursor := none
  enabled : Bool := false
  updated : Bool := false
deriving DecidableEq, Repr

namespace Select

/-- `Select::start` — the lexicographically earlier of anchor/focus. -/
def start (s : Select) : Option Cursor :=
  match s.range with
  | some (a, f) =>
      if a.y0 < f.y0 then some a
      else if f.y0 < a.y0 then some f
      else if a.x0 < f.x0 then some a
      else some f
  | none => none

/-- `Select::end` — the lexicographically later of anchor/focus. -/
def endc (s : Select) : Option Cursor :=
  match s.range with
  | some (a, f) =>
      if a.y0 < f.y0 then some f
      else if f.y0 < a.y0 then some a
      else if a.x0 < f.x0 then some f
      else some a
  | none => none

/-- `Select::set_start` — establish the anchor (focus = anchor). -/
def setStart (s : Select) (start : Cursor) (mode : SelectMode) : Select :=
  let s' := { s with mode := mode, previous := none,
                     range := some (start, start), enabled := true }
  { s' with updated := s.updated || decide (s ≠ s') }

/-- `Select::set_end` — update the focus (requires an established range:
the source unwraps it). -/
def setEnd (s : Select) (e : Cursor) : Select :=
  match s.range with
  | some (a, f) =>
      let s' := { s with previous := some f, range := some (a, e) }
      { s' with updated := s.updated || decide (s ≠ s') }
  | none => s

end Select

namespace Screen

/-- `Screen::fit` — snap the viewport so `pos` is inside it; returns the new
screen and whether it moved.  (The `x - (width - last_char_width)` site can
underflow `usize` in Rust for degenerate geometries; `Nat` subtraction here
truncates, and theorems about `fit` assume the non-degenerate side
conditions.) -/
def fit (s : Screen) (content : Buffer) (pos : Nat × Nat) : Screen × Bool :=
  let s1 :=
    if pos.2 < s.top0 then { s with top0 := pos.2 }
    else if s.bottom < pos.2 then { s with top0 := pos.2 - (s.height - 1) }
    else s
  let s2 :=
    if pos.1 < s1.left0 then { s1 with left0 := pos.1 }
    else if s1.right ≤ pos.1 then
      match content.get pos.2 with
      | some row => { s1 with left0 := pos.1 - (s1.width - row.lastCharWidth) }
      | none => { s1 with left0 := 0 }
    else s1
  let moved := decide (s ≠ s2)
  ({ s2 with updated := s2.updated || moved }, moved)

end Screen

namespace Buffer

/-- `Buffer::append_row_bypass`. -/
def appendRowBypass (b : Buffer) (at_ : Nat × Nat) (text : List Char) :
    Option (Nat × Nat) × Buffer :=
  match b.rows[at_.2]? with
  | some row =>
      (some (row.len, at_.2),
       { b with cached := true,
                updated := b.updated ++ [(at_.2, at_.2 + 1)],
                rows := b.rows.set at_.2 (row.append text) })
  | none => (none, b)

/-- `Buffer::insert_row_bypass` — NOT bounds-checked in the source:
`Vec::insert` panics when `at.y > rows()` (see `insertRowPanics`);
`List.insertIdx` leaves the list unchanged there. -/
def insertRowBypass (b : Buffer) (at_ : Nat × Nat) (text : List Char) : Buffer :=
  { b with cached := true,
           updated := b.updated ++ [(at_.2, b.rows.length + 1)],
           rows := b.rows.insertIdx at_.2 ⟨text⟩ }

/-- The exact precondition violation under which the source
`Buffer::insert_row_bypass` panics: `Vec::insert` requires
`index <= len`. -/
def insertRowPanics (b : Buffer) (at_ : Nat × Nat) : Bool :=
  decide (b.rows.length < at_.2)

/-- `Buffer::delete_row_bypass`. -/
def deleteRowBypass (b : Buffer) (at_ : Nat × Nat) : Option Row × Buffer :=
  match b.rows[at_.2]? with
  | some row =>
      (some row,
       { b with cached := true,
                updated := b.updated ++ [(at_.2, b.rows.length)],
                rows := b.rows.eraseIdx at_.2 })
  | none => (none, b)

/-- `Buffer::delete_char_bypass` — backspace semantics (`0 < x ≤ len`
removes the character before `x`). -/
def deleteCharBypass (b : Buffer) (at_ : Nat × Nat) : Option Char × Buffer :=
  match b.rows[at_.2]? with
  | some row =>
      if 0 < at_.1 ∧ at_.1 ≤ row.len then
        match row.remove (at_.1 - 1) with
        | some (ch, row') =>
            (some ch,
             { b with cached := true,
                      updated := b.updated ++ [(at_.2, at_.2 + 1)],
                      rows := b.rows.set at_.2 row' })
        | none => (none, b)
      else (none, b)
  | none => (none, b)

/-- `Buffer::insert_char_bypass`. -/
def insertCharBypass (b : Buffer) (at_ : Nat × Nat) (ch : Char) :
    Option (Nat × Nat) × Buffer :=
  match b.rows[at_.2]? with
  | some row =>
      if at_.1 ≤ row.len then
        (some (at_.1, at_.2),
         { b with cached := true,
                  updated := b.updated ++ [(at_.2, at_.2 + 1)],
                  rows := b.rows.set at_.2 (row.insert at_.1 ch) })
      else (none, b)
  | none => (none, b)

/-- `Buffer::replace_bypass`. -/
def replaceBypass (b : Buffer) (at_ : Nat × Nat) (length : Nat)
    (text : List Char) : Option Row × Buffer :=
  match b.rows[at_.2]? with
  | some row =>
      match row.replace at_.1 length text with
      | some (removed, row') =>
          (some ⟨removed⟩,
           { b with cached := true,
                    updated := b.updated ++ [(at_.2, at_.2 + 1)],
                    rows := b.rows.set at_.2 row' })
      | none => (none, b)
  | none => (none, b)

/-- `Buffer::shrink_row_bypass` — truncate row `y` at `x`, stash the tail in
`pending`.  (`Row::split_off` panics in Rust when `x > len`; theorems using
this assume `x ≤ len`.) -/
def shrinkRowBypass (b : Buffer) (at_ : Nat × Nat) : Option Row × Buffer :=
  match b.rows[at_.2]? with
  | some row =>
      let (kept, removed) := row.splitOff at_.1
      (some removed,
       { b with cached := true,
                rows := b.rows.set at_.2 kept,
                updated := b.updated ++ [(at_.2, at_.2 + 1)],
                pending := some ([removed], .None) })
  | none => (none, b)

/-- `Buffer::split_row_bypass` — split row `y` at `x`; the clamped cursor
`next_at` names where the tail row is inserted.  (Same `split_off`
caveat as `shrinkRowBypass`.) -/
def splitRowBypass (b : Buffer) (at_ : Nat × Nat) : Option (Nat × Nat) × Buffer :=
  let rowLen := b.rows.length
  match b.rows[at_.2]? with
  | some row =>
      let (kept, next) := row.splitOff at_.1
      let b1 := { b with cached := true,
                         updated := b.updated ++ [(at_.2, rowLen + 1)],
                         rows := b.rows.set at_.2 kept }
      let nextAt := (({} : Cursor).set b1 (at_.1, at_.2 + 1)).1
      (some nextAt.asCoordinates,
       b1.insertRowBypass nextAt.asCoordinates next.column)
  | none => (none, b)

/-- `Buffer::squash_row_bypass` — join row `y` onto row `y-1` (no-op at
`y = 0`); returns the coordinates of the join point. -/
def squashRowBypass (b : Buffer) (at_ : Nat × Nat) : Option (Nat × Nat) × Buffer :=
  if 0 < at_.2 then
    match b.deleteRowBypass at_ with
    | (some row, b1) =>
        let b2 := { b1 with cached := true,
                            updated := b1.updated ++ [(at_.2 - 1, b1.rows.length)] }
        let nextAt := (({} : Cursor).set b2 (at_.1, at_.2 - 1)).1
        b2.appendRowBypass nextAt.asCoordinates row.column
    | (none, b1) => (none, b1)
  else (none, b)

/-- Multi-row loop of `Buffer::delete_chars_none`: `for idx in
(start.y..end.y+1).rev()`, with state (buffer, collected rows, `last`). -/
def deleteCharsNoneGo (sx sy ex ey : Nat) :
    List Nat → Buffer × List Row × Row → Buffer × List Row × Row
  | [], st => st
  | idx :: rest, (b, rs, last) =>
      let st :=
        match b.rows[idx]? with
        | none => (b, rs, last)
        | some row =>
            if idx = sy then
              match row.removeRange sx row.len with
              | some (text, row') =>
                  ({ b with rows := b.rows.set idx (row'.append last.column) },
                   rs ++ [⟨text⟩], last)
              | none =>
                  ({ b with rows := b.rows.set idx (row.append last.column) },
                   rs, last)
            else if idx = ey then
              match row.removeRange 0 ex with
              | some (text, row') =>
                  let b1 := { b with rows := b.rows.set idx row' }
                  match b1.deleteRowBypass (0, idx) with
                  | (some r, b2) => (b2, rs ++ [⟨text⟩], r)
                  | (none, b2) => (b2, rs ++ [⟨text⟩], last)
              | none =>
                  match b.deleteRowBypass (0, idx) with
                  | (some r, b2) => (b2, rs, r)
                  | (none, b2) => (b2, rs, last)
            else
              match b.deleteRowBypass (0, idx) with
              | (some r, b2) => (b2, rs ++ [r], last)
              | (none, b2) => (b2, rs, last)
      deleteCharsNoneGo sx sy ex ey rest st

/-- `Buffer::delete_chars_none`.  (In the same-row branch `Vec::drain`
additionally requires `start.x ≤ end.x` in Rust, and in the multi-row
branch `start.x ≤ len(row start.y)`; theorems assume these.) -/
def deleteCharsNone (b : Buffer) (s e : Nat × Nat) : List Row × Buffer :=
  if s.2 = e.2 then
    match b.rows[s.2]? with
    | some row =>
        if s.1 < row.len then
          match row.removeRange s.1 e.1 with
          | some (text, row') => ([⟨text⟩], { b with rows := b.rows.set s.2 row' })
          | none => ([], b)
        else ([], b)
    | none => ([], b)
  else
    let (b', rs, _) := deleteCharsNoneGo s.1 s.2 e.1 e.2
        ((List.range' s.2 (e.2 + 1 - s.2)).reverse) (b, [], default)
    (rs, b')

/-- Per-row loop of `Buffer::delete_chars_rectangle`
(`rows.iter_mut().rev()`). -/
def deleteCharsRectGo (startx endx length : Nat) :
    List Nat → Buffer × List Row → Buffer × List Row
  | [], st => st
  | idx :: rest, (b, rs) =>
      let st :=
        match b.rows[idx]? with
        | some row =>
            if startx < row.len then
              let endx' := min row.len endx
              let post := length - (endx' - startx)
              match row.removeRange startx endx' with
              | some (text, row') =>
                  ({ b with rows := b.rows.set idx row' },
                   rs ++ [⟨text ++ List.replicate post ' '⟩])
              | none => (b, rs)
            else (b, rs ++ [⟨List.replicate length ' '⟩])
        | none => (b, rs)
      deleteCharsRectGo startx endx length rest st

/-- `Buffer::delete_chars_rectangle` — the guard is `rows.get_mut(sy..ey+1)`
succeeding (`sy ≤ ey+1 ≤ rows()`).  `length = end.x - start.x` is a `usize`
subtraction in the source: it underflows in Rust when `end.x < start.x`
(here it truncates to 0); theorems avoid that region. -/
def deleteCharsRectangle (b : Buffer) (s e : Nat × Nat) : List Row × Buffer :=
  if s.2 ≤ e.2 + 1 ∧ e.2 + 1 ≤ b.rows.length then
    let startx := min s.1 e.1
    let endx := max s.1 e.1
    let length := e.1 - s.1
    let (b', rs) := deleteCharsRectGo startx endx length
        ((List.range' s.2 (e.2 + 1 - s.2)).reverse) (b, [])
    (rs, b')
  else ([], b)

/-- `Buffer::delete_chars_bypass`. -/
def deleteCharsBypass (b : Buffer) (s e : Nat × Nat) (mode : SelectMode) :
    Option (List Row) × Buffer :=
  let (rs, b1) :=
    match mode with
    | .None => b.deleteCharsNone s e
    | .Rectangle => b.deleteCharsRectangle s e
  if rs.isEmpty then (none, b1)
  else
    let rs := rs.reverse
    (some rs,
     { b1 with cached := true, pending := some (rs, mode),
               updated := b1.updated ++
                 [if rs.length = 1 then (s.2, s.2 + 1) else (s.2, b1.rows.length)] })

/-- Middle-rows loop of `Buffer::insert_chars_none`: insert each middle row
at `(0, at.y + idx + 1)`. -/
def insertRowsFrom (y : Nat) : List Row → Buffer → Buffer
  | [], b => b
  | r :: rest, b => insertRowsFrom (y + 1) rest (b.insertRowBypass (0, y) r.column)

/-- `Buffer::insert_chars_none`.  The running `end` assigned inside the
middle-rows loop is always overwritten by the last-row block (which runs
whenever `1 < rows.len()`), so only the final value is modelled. -/
def insertCharsNone (b : Buffer) (at_ : Nat × Nat) (rows : List Row) :
    Option (Nat × Nat) × Buffer :=
  match b.rows[at_.2]?, rows.head? with
  | some row, some first =>
      let step1 :=
        if at_.1 ≤ row.len then
          if 1 < rows.length then
            let (kept, tail) := row.splitOff at_.1
            ({ b with cached := true,
                      rows := b.rows.set at_.2 (kept.append first.column) },
             tail, ((at_.1 + first.len, at_.2) : Nat × Nat))
          else
            ({ b with cached := true,
                      rows := b.rows.set at_.2 (row.insertSlice at_.1 first.column) },
             (default : Row), ((at_.1 + first.len, at_.2) : Nat × Nat))
        else (b, (default : Row), at_)
      let (b1, rest, end1) := step1
      if 1 < rows.length then
        let middles := (rows.drop 1).take (rows.length - 1 - 1)
        let b2 := insertRowsFrom (at_.2 + 1) middles { b1 with cached := true }
        match rows.getLast? with
        | some lastRow =>
            let y := at_.2 + rows.length - 1
            let b3 := { b2 with cached := true }
            let b4 := b3.insertRowBypass (0, y) lastRow.column
            (some (lastRow.len, y), (b4.appendRowBypass (0, y) rest.column).2)
        | none => (some end1, b2)
      else (some end1, b1)
  | _, _ => (none, b)

/-- Per-row loop of `Buffer::insert_chars_rectangle`.  (The missing-row arm
calls `insert_row_bypass`, so it panics in Rust when `idx + at.y` exceeds
the current row count, i.e. when `at.y > rows()` initially.) -/
def insertCharsRectGo (atx : Nat) : List Row → Nat → Buffer × (Nat × Nat) →
    Buffer × (Nat × Nat)
  | [], _, st => st
  | r :: rest, y, (b, _) =>
      let b' :=
        match b.rows[y]? with
        | some tr =>
            if tr.len < atx then
              let padded := tr.append (List.replicate (atx - tr.len) ' ' ++ r.column)
              { b with rows := b.rows.set y padded }
            else
              { b with rows := b.rows.set y (tr.insertSlice atx r.column) }
        | none => b.insertRowBypass (0, y) (List.replicate atx ' ' ++ r.column)
      insertCharsRectGo atx rest (y + 1) (b', (atx + r.len, y))

/-- `Buffer::insert_chars_rectangle`. -/
def insertCharsRectangle (b : Buffer) (at_ : Nat × Nat) (rows : List Row) :
    Option (Nat × Nat) × Buffer :=
  let (b', endc) := insertCharsRectGo at_.1 rows at_.2 (b, at_)
  (some endc, b')

/-- `Buffer::insert_chars_bypass`. -/
def insertCharsBypass (b : Buffer) (at_ : Nat × Nat) (rows : List Row)
    (mode : SelectMode) : Option (Nat × Nat) × Buffer :=
  let (endOpt, b1) :=
    match mode with
    | .None => b.insertCharsNone at_ rows
    | .Rectangle => b.insertCharsRectangle at_ rows
  match endOpt with
  | some endc =>
      if at_ = endc then (none, b1)
      else
        (some endc,
         { b1 with updated := b1.updated ++
             [if at_.2 = endc.2 then (at_.2, endc.2 + 1) else (at_.2, b1.rows.length)] })
  | none => (none, b1)

/-- `Buffer::append_row` (recording form). -/
def appendRow (b : Buffer) (at_ : Nat × Nat) (text : List Char) : Buffer :=
  match b.appendRowBypass at_ text with
  | (some cur, b') => b'.record at_ (.Append cur)
  | (none, b') => b'

/-- `Buffer::delete_row` (recording form). -/
def deleteRow (b : Buffer) (at_ : Nat × Nat) : Option Row × Buffer :=
  match b.deleteRowBypass at_ with
  | (some r, b') => (some r, b'.record at_ (.DeleteRow at_ r))
  | (none, b') => (none, b')

/-- `Buffer::delete_char` (recording form). -/
def deleteChar (b : Buffer) (at_ : Nat × Nat) : Buffer :=
  match b.deleteCharBypass at_ with
  | (some ch, b') => b'.record at_ (.DeleteChar at_ ch)
  | (none, b') => b'

/-- `Buffer::delete_chars` (recording form). -/
def deleteChars (b : Buffer) (s e : Nat × Nat) (mode : SelectMode) : Buffer :=
  match b.deleteCharsBypass s e mode with
  | (some rs, b') => b'.record s (.DeleteChars s rs mode)
  | (none, b') => b'

/-- `Buffer::insert_char` (recording form). -/
def insertChar (b : Buffer) (at_ : Nat × Nat) (ch : Char) : Buffer :=
  match b.insertCharBypass at_ ch with
  | (some _, b') => b'.record at_ (.InsertChar at_)
  | (none, b') => b'

/-- `Buffer::insert_chars` (recording form). -/
def insertChars (b : Buffer) (at_ : Nat × Nat) (rows : List Row)
    (mode : SelectMode) : Option (Nat × Nat) × Buffer :=
  match b.insertCharsBypass at_ rows mode with
  | (some endc, b') => (some endc, b'.record at_ (.InsertChars at_ endc mode))
  | (none, b') => (none, b')

/-- `Buffer::insert_row` (recording form) — records unconditionally. -/
def insertRow (b : Buffer) (at_ : Nat × Nat) (text : List Char) : Buffer :=
  (b.insertRowBypass at_ text).record at_ (.InsertRow at_)

/-- `Buffer::replace` (recording form). -/
def replace (b : Buffer) (at_ : Nat × Nat) (length : Nat) (text : List Char) :
    Option Row × Buffer :=
  match b.replaceBypass at_ length text with
  | (some r, b') => (some r, b'.record at_ (.Replace at_ text.length r))
  | (none, b') => (none, b')

/-- `Buffer::shrink_row` (recording form). -/
def shrinkRow (b : Buffer) (at_ : Nat × Nat) : Buffer :=
  match b.shrinkRowBypass at_ with
  | (some row, b') => b'.record at_ (.ShrinkRow at_ row)
  | (none, b') => b'

/-- `Buffer::split_row` (recording form). -/
def splitRow (b : Buffer) (at_ : Nat × Nat) : Buffer :=
  match b.splitRowBypass at_ with
  | (some cur, b') => b'.record at_ (.SplitRow cur)
  | (none, b') => b'

/-- `Buffer::squash_row` (recording form). -/
def squashRow (b : Buffer) (at_ : Nat × Nat) : Buffer :=
  match b.squashRowBypass at_ with
  | (some cur, b') => b'.record at_ (.SquashRow cur)
  | (none, b') => b'

/-- `Buffer::undo` — pop the last history entry, apply the bypass inverse,
return the record-time cursor. -/
def undo (b : Buffer) : Option (Nat × Nat) × Buffer :=
  match b.history with
  | [] => (none, b)
  | (cur, op) :: rest =>
      let b0 := { b with history := rest, cached := true }
      let b' :=
        match op with
        | .Append cord => (b0.shrinkRowBypass cord).2
        | .DeleteChar cord ch => (b0.insertCharBypass (cord.1 - 1, cord.2) ch).2
        | .DeleteChars cord rows mode => (b0.insertCharsBypass cord rows mode).2
        | .DeleteRow cord row => b0.insertRowBypass cord row.column
        | .InsertChar cord => (b0.deleteCharBypass (cord.1 + 1, cord.2)).2
        | .InsertChars cord endc mode => (b0.deleteCharsBypass cord endc mode).2
        | .InsertRow cord => (b0.deleteRowBypass cord).2
        | .Replace cord length row => (b0.replaceBypass cord length row.column).2
        | .ShrinkRow cord row => (b0.appendRowBypass cord row.column).2
        | .SplitRow cord => (b0.squashRowBypass cord).2
        | .SquashRow cord => (b0.splitRowBypass cord).2
      (some cur, b')

end Buffer

/-- Character-level first-occurrence search: the least index `i` such that
`kw` is a prefix of `hay` from `i` on. -/
def charFind : List Char → List Char → Option Nat
  | hay, kw =>
      if kw.isPrefixOf hay then some 0
      else
        match hay with
        | [] => none
        | _ :: t => (charFind t kw).map (· + 1)

/-- UTF-8 byte length of a character list. -/
def utf8Len (l : List Char) : Nat := (l.map Char.utf8Size).sum

/-- `str::find(keyword)` on the string holding `hay`: the BYTE offset of the
first occurrence.  Because UTF-8 is self-synchronizing, a byte-level match
of one valid UTF-8 string inside another always starts and ends on
character boundaries, so `str::find` equals character-level search with the
match index converted to a byte offset. -/
def strFind (hay kw : List Char) : Option Nat :=
  (charFind hay kw).map fun i => utf8Len (hay.take i)

/-- Row scan of `Buffer::find_at`: `skip` characters of the first row are
dropped (`Row::to_string_at`), and a hit reports `byte_offset + skip`. -/
def findAtGo (kw : List Char) : List Row → Nat → Nat → Option (Nat × Nat)
  | [], _, _ => none
  | r :: rest, y, skip =>
      match strFind (r.toStringAt skip) kw with
      | some x => some (x + skip, y)
      | none => findAtGo kw rest (y + 1) 0

namespace Buffer

/-- `Buffer::find_at`. -/
def findAt (b : Buffer) (at_ : Nat × Nat) (kw : List Char) : Option (Nat × Nat) :=
  findAtGo kw (b.rows.drop at_.2) at_.2 at_.1

/-- The serialized file content written by `Buffer::save_as`: each row's
characters followed by `\r\n`. -/
def serialize (b : Buffer) : List Char :=
  b.rows.foldl (fun acc r => acc ++ r.toStringAt 0 ++ ['\r', '\n']) []

/-- `Buffer::save_as`, with the file system abstracted by `ioOk` (whether
the create/write/flush sequence succeeds).  On success the content is
written and `cached` cleared; an I/O error propagates with `?` before
`self.cached = false`, so the flag is untouched. -/
def saveAs (b : Buffer) (ioOk : Bool) : Except Unit (List Char × Buffer) :=
  if ioOk then .ok (b.serialize, { b with cached := false })
  else .error ()

/-- `Buffer::save` — delegates to `save_as` when a filename is set,
otherwise does nothing and returns `Ok(())`. -/
def save (b : Buffer) (ioOk : Bool) : Except Unit (Option (List Char) × Buffer) :=
  match b.filename with
  | some _ =>
      match b.saveAs ioOk with
      | .ok (content, b') => .ok (some content, b')
      | .error e => .error e
  | none => .ok (none, b)

end Buffer

/-- Convenience constructor for concrete buffers (rows only, all other
fields default). -/
def mkBuf (rs : List (List Char)) : Buffer := { rows := rs.map Row.mk }

/-- `row_char_len` as a function of the row index alone (the `x` component
of the coordinate argument is ignored by `Buffer::row_char_len`). -/
def lenAt (b : Buffer) (y : Nat) : Nat :=
  match b.rows[y]? with
  | some r => r.len
  | none => 0

/-- The cursor clamp invariant of the spec: `x ≤ row_char_len(y)` and
`y ≤ rows()`. -/
def Cursor.inv (c : Cursor) (b : Buffer) : Prop :=
  c.x0 ≤ b.rowCharLen (c.x0, c.y0) ∧ c.y0 ≤ b.rowsLen

instance (c : Cursor) (b : Buffer) : Decidable (c.inv b) := by
  unfold Cursor.inv; infer_instance

/-- Absence of `usize` underflow in the horizontal branch of `Screen::fit`
(`left0 = x - (width - last_char_width)`): holds for every real geometry
(`width ≥` the final glyph's width and the cursor right of the window). -/
def fitXSafe (s : Screen) (b : Buffer) (pos : Nat × Nat) : Bool :=
  match b.get pos.2 with
  | some row =>
      !decide (s.right ≤ pos.1) ||
        (decide (row.lastCharWidth ≤ s.width) &&
         decide (s.width - row.lastCharWidth ≤ pos.1))
  | none => true

/-- Spec-side variant of the `find_at` row scan, following the claim's
words: the hit offset is the CHARACTER offset of the first occurrence
(plus the skipped characters), for comparison with the byte-offset
behaviour of the source. -/
def findAtSpecGo (kw : List Char) : List Row → Nat → Nat → Option (Nat × Nat)
  | [], _, _ => none
  | r :: rest, y, skip =>
      match charFind (r.column.drop skip) kw with
      | some i => some (i + skip, y)
      | none => findAtSpecGo kw rest (y + 1) 0

/-- Spec-side `find_at` (character offsets). -/
def Buffer.findAtSpec (b : Buffer) (at_ : Nat × Nat) (kw : List Char) :
    Option (Nat × Nat) :=
  findAtSpecGo kw (b.rows.drop at_.2) at_.2 at_.1

/-- All characters of the buffer are single-byte in UTF-8 (e.g. ASCII). -/
def Buffer.asciiOnly (b : Buffer) : Prop :=
  ∀ r ∈ b.rows, ∀ c ∈ r.column, c.utf8Size = 1

instance (b : Buffer) : Decidable b.asciiOnly := by
  unfold Buffer.asciiOnly; infer_instance

/-! ### List kit: splice lemmas at an exact append boundary -/

theorem getElem?_append_len {α} (Q : List α) (x : α) (S : List α) :
    (Q ++ x :: S)[Q.length]? = some x := by
  induction Q with
  | nil => simp
  | cons a t ih => simpa using ih

theorem set_append_len {α} (Q : List α) (x y : α) (S : List α) :
    (Q ++ x :: S).set Q.length y = Q ++ y :: S := by
  induction Q with
  | nil => simp
  | cons a t ih => simp [ih]

theorem eraseIdx_append_len {α} (Q : List α) (x : α) (S : List α) :
    (Q ++ x :: S).eraseIdx Q.length = Q ++ S := by
  induction Q with
  | nil => simp
  | cons a t ih => simpa using ih

theorem insertIdx_append_len {α} (Q S : List α) (x : α) :
    (Q ++ S).insertIdx Q.length x = Q ++ x :: S := by
  induction Q with
  | nil => simp
  | cons a t ih => simpa using ih

theorem set_self {α} (l : List α) (i : Nat) (x : α) (h : l[i]? = some x) :
    l.set i x = l := by
  induction l generalizing i with
  | nil => simp at h
  | cons a t ih =>
      cases i with
      | zero => simp_all
      | succ n => simp_all

theorem take_append_len {α} (Q S : List α) (n : Nat) (h : n = Q.length) :
    (Q ++ S).take n = Q := by subst h; exact List.take_left Q S

theorem drop_append_len {α} (Q S : List α) (n : Nat) (h : n = Q.length) :
    (Q ++ S).drop n = S := by subst h; exact List.drop_left Q S

theorem decomp_of_getElem? {α} (l : List α) (i : Nat) (x : α) (h : l[i]? = some x) :
    l = l.take i ++ x :: l.drop (i + 1) ∧ (l.take i).length = i := by
  obtain ⟨hlt, hx⟩ := List.getElem?_eq_some_iff.1 h
  refine ⟨?_, by simp [List.length_take]; omega⟩
  conv_lhs => rw [← List.take_append_drop i l]
  rw [List.drop_eq_getElem_cons hlt, hx]

/-! ### Width arithmetic (C6) -/

theorem widthFold_append (a : Nat) (l1 l2 : List Char) :
    Row.widthFold a (l1 ++ l2) = Row.widthFold (Row.widthFold a l1) l2 := by
  induction l1 generalizing a with
  | nil => rfl
  | cons c t ih =>
      simp only [List.cons_append, Row.widthFold]
      split <;> apply ih

theorem widthRange_succ (r : Row) (i : Nat) (c : Char) (h : r.column[i]? = some c) :
    r.widthRange (i + 1) = r.widthRange i +
      (if c = '\t' then TAB_STOP - (r.widthRange i) % TAB_STOP else charWidth c) := by
  unfold Row.widthRange
  rw [List.take_succ, h]
  simp only [Option.toList, widthFold_append]
  simp only [Row.widthFold]
  split <;> rfl

/-- C6: visual width of row prefixes is monotone in the prefix length; a tab
always contributes between 1 and 8 columns; a CJK-wide scalar always
contributes exactly 2 columns. -/
theorem row_width_monotone_tab_cjk :
    (∀ (r : Row) (i : Nat), i + 1 ≤ r.len → r.widthRange i ≤ r.widthRange (i + 1)) ∧
    (∀ (r : Row) (i : Nat), r.column[i]? = some '\t' →
        1 ≤ r.widthRange (i + 1) - r.widthRange i ∧
        r.widthRange (i + 1) - r.widthRange i ≤ 8) ∧
    (∀ (r : Row) (i : Nat) (c : Char), r.column[i]? = some c → isWideCJK c = true →
        r.widthRange (i + 1) = r.widthRange i + 2) := by
  refine ⟨?_, ?_, ?_⟩
  · intro r i h
    have hlt : i < r.column.length := h
    rw [widthRange_succ r i r.column[i] (List.getElem?_eq_some_iff.2 ⟨hlt, rfl⟩)]
    exact Nat.le_add_right _ _
  · intro r i h
    rw [widthRange_succ r i '\t' h]
    have hif : (if '\t' = '\t' then TAB_STOP - r.widthRange i % TAB_STOP
        else charWidth '\t') = TAB_STOP - r.widthRange i % TAB_STOP := if_pos rfl
    have h8 : TAB_STOP = 8 := rfl
    rw [hif, h8]
    omega
  · intro r i c h hw
    have hc : c ≠ '\t' := by
      intro he
      subst he
      exact absurd hw (by decide)
    rw [widthRange_succ r i c h, if_neg hc]
    unfold charWidth
    rw [hw]
    simp

/-- C6 witness: the three parts evaluated on concrete rows. -/
theorem row_width_monotone_tab_cjk_witness :
    (Row.mk ['a', 'b']).widthRange 0 ≤ (Row.mk ['a', 'b']).widthRange 1 ∧
    (1 ≤ (Row.mk ['\t']).widthRange 1 - (Row.mk ['\t']).widthRange 0 ∧
      (Row.mk ['\t']).widthRange 1 - (Row.mk ['\t']).widthRange 0 ≤ 8) ∧
    (Row.mk ['あ']).widthRange 1 = (Row.mk ['あ']).widthRange 0 + 2 :=
  ⟨row_width_monotone_tab_cjk.1 ⟨['a', 'b']⟩ 0 (by decide),
   row_width_monotone_tab_cjk.2.1 ⟨['\t']⟩ 0 (by decide),
   row_width_monotone_tab_cjk.2.2 ⟨['あ']⟩ 0 'あ' (by decide) (by decide)⟩

/-! ### Selection ordering (C5) -/

/-- C5: whenever the range is set, `start()`/`end()` both return `Some`, and
the pair is lexicographically ordered by `(y, x)` regardless of the
anchor/focus order. -/
theorem select_start_end_ordered (s : Select) (a f : Cursor)
    (h : s.range = some (a, f)) :
    ∃ st en, s.start = some st ∧ s.endc = some en ∧
      (st.y0 < en.y0 ∨ (st.y0 = en.y0 ∧ st.x0 ≤ en.x0)) := by
  unfold Select.start Select.endc
  rw [h]
  by_cases h1 : a.y0 < f.y0
  · exact ⟨a, f, by simp [h1], by simp [h1], Or.inl h1⟩
  · by_cases h2 : f.y0 < a.y0
    · exact ⟨f, a, by simp [h1, h2], by simp [h1, h2], Or.inl h2⟩
    · have hy : a.y0 = f.y0 := by omega
      by_cases h3 : a.x0 < f.x0
      · exact ⟨a, f, by simp [h1, h2, h3], by simp [h1, h2, h3],
          Or.inr ⟨hy, Nat.le_of_lt h3⟩⟩
      · exact ⟨f, a, by simp [h1, h2, h3], by simp [h1, h2, h3],
          Or.inr ⟨hy.symm, by omega⟩⟩

/-- C5 witness: a "backward" selection (anchor after focus). -/
theorem select_start_end_ordered_witness :
    ∃ st en,
      (Select.mk .None (some (⟨2, 1⟩, ⟨0, 0⟩)) none true false).start = some st ∧
      (Select.mk .None (some (⟨2, 1⟩, ⟨0, 0⟩)) none true false).endc = some en ∧
      (st.y0 < en.y0 ∨ (st.y0 = en.y0 ∧ st.x0 ≤ en.x0)) :=
  select_start_end_ordered _ ⟨2, 1⟩ ⟨0, 0⟩ rfl

/-! ### Rectangle delete scenario (C3) -/

/-- C3 counterexample: the scenario stashes 2 single-char rows, not the 3
the claim states (the rectangle `(1,0)..(2,1)` spans only rows 0 and 1). -/
theorem rect_delete_scenario_counterexample :
    (((mkBuf [['a', 'b'], ['c', 'd']]).deleteChars (1, 0) (2, 1) .Rectangle).pending.map
        fun p => p.1.length) = some 2 ∧
    ¬ ((((mkBuf [['a', 'b'], ['c', 'd']]).deleteChars (1, 0) (2, 1) .Rectangle).pending.map
        fun p => p.1.length) = some 3) := by decide

/-- C3 (amended): rectangle-delete `(1,0)..(2,1)` of `["ab","cd"]` leaves
rows `["a","c"]` and stashes the 2 removed single-char rows `["b","d"]` in
`pending` tagged `Rectangle`. -/
theorem rect_delete_scenario :
    ((mkBuf [['a', 'b'], ['c', 'd']]).deleteChars (1, 0) (2, 1) .Rectangle).rows
        = [⟨['a']⟩, ⟨['c']⟩] ∧
    ((mkBuf [['a', 'b'], ['c', 'd']]).deleteChars (1, 0) (2, 1) .Rectangle).pending
        = some ([⟨['b']⟩, ⟨['d']⟩], .Rectangle) ∧
    (∀ p ∈ ((mkBuf [['a', 'b'], ['c', 'd']]).deleteChars (1, 0) (2, 1) .Rectangle).pending,
        p.1.length = 2 ∧ ∀ r ∈ p.1, r.len = 1) := by decide

/-! ### Undo clobbers pending on Append (C10) -/

/-- C10: when the newest history record is an `Append` whose coordinate
names an existing row, `undo()` (via `shrink_row_bypass`) overwrites the
pending clipboard with the removed tail as a single row tagged
`SelectMode::None`, and returns the record-time cursor. -/
theorem undo_append_clobbers_pending (b : Buffer) (cur cord : Nat × Nat)
    (rest : List ((Nat × Nat) × Operation)) (r : Row)
    (h : b.history = (cur, .Append cord) :: rest) (hr : b.rows[cord.2]? = some r) :
    (b.undo).2.pending = some ([⟨r.column.drop cord.1⟩], .None) ∧
    (b.undo).1 = some cur := by
  unfold Buffer.undo
  rw [h]
  simp [Buffer.shrinkRowBypass, Row.splitOff, hr]

/-- C10 witness: after `append_row` on `["a"]`, undo stores the removed
tail `"b"` in `pending`. -/
theorem undo_append_clobbers_pending_witness :
    (((mkBuf [['a']]).appendRow (0, 0) ['b']).undo).2.pending
        = some ([⟨['b']⟩], .None) ∧
    (((mkBuf [['a']]).appendRow (0, 0) ['b']).undo).1 = some (0, 0) :=
  undo_append_clobbers_pending _ (0, 0) (1, 0) [] ⟨['a', 'b']⟩ (by decide) (by decide)

/-! ### Save contract (C9) -/

theorem serialize_foldl (l : List Row) (acc : List Char) :
    l.foldl (fun a r => a ++ r.toStringAt 0 ++ ['\r', '\n']) acc
      = acc ++ (l.map fun r => r.column ++ ['\r', '\n']).flatten := by
  induction l generalizing acc with
  | nil => simp
  | cons r t ih =>
      rw [List.foldl_cons, ih]
      simp [Row.toStringAt, List.append_assoc]

/-- C9 counterexample: `save()` on a buffer with no filename returns `Ok`
but writes nothing and leaves the dirty flag set, contradicting "on success
the dirty flag is cleared". -/
theorem save_no_filename_counterexample :
    (Buffer.mk [⟨['a']⟩] none true [] [] none).save true
        = .ok (none, Buffer.mk [⟨['a']⟩] none true [] [] none) ∧
    (Buffer.mk [⟨['a']⟩] none true [] [] none).cached = true := by
  exact ⟨rfl, rfl⟩

/-- C9 (amended): `save_as` writes each row's characters followed by
`\r\n`, in order, and clears the dirty flag on success; on an I/O failure
the error is returned and the buffer (dirty flag included) is untouched.
`save` behaves like `save_as` when a filename is set; with no filename it
succeeds without writing and leaves the dirty flag unchanged. -/
theorem save_contract :
    (∀ b : Buffer, b.saveAs true
        = .ok ((b.rows.map fun r => r.column ++ ['\r', '\n']).flatten,
               { b with cached := false })) ∧
    (∀ b : Buffer, b.saveAs false = .error ()) ∧
    (∀ (b : Buffer) (p : String), b.filename = some p →
        b.save true
          = .ok (some ((b.rows.map fun r => r.column ++ ['\r', '\n']).flatten),
                 { b with cached := false }) ∧
        b.save false = .error ()) ∧
    (∀ b : Buffer, b.filename = none → ∀ io, b.save io = .ok (none, b)) := by
  have hser : ∀ b : Buffer,
      b.serialize = (b.rows.map fun r => r.column ++ ['\r', '\n']).flatten := by
    intro b
    unfold Buffer.serialize
    rw [serialize_foldl]
    rfl
  refine ⟨?_, ?_, ?_, ?_⟩
  · intro b
    simp [Buffer.saveAs, hser]
  · intro b
    rfl
  · intro b p h
    exact ⟨by simp [Buffer.save, Buffer.saveAs, h, hser],
           by simp [Buffer.save, Buffer.saveAs, h]⟩
  · intro b h io
    simp [Buffer.save, h]

/-- C9 witness: the `save`/`save_as` contract on a concrete named, dirty
buffer. -/
theorem save_contract_witness :
    (Buffer.mk [⟨['a']⟩] (some "a.txt") true [] [] none).save true
      = .ok (some ['a', '\r', '\n'],
             Buffer.mk [⟨['a']⟩] (some "a.txt") false [] [] none) ∧
    (Buffer.mk [⟨['a']⟩] (some "a.txt") true [] [] none).save false = .error () :=
  save_contract.2.2.1 (Buffer.mk [⟨['a']⟩] (some "a.txt") true [] [] none) "a.txt" rfl

/-! ### Viewport fit (C8) -/

theorem screen_ne_update (s : Screen) (t l : Nat) :
    (s ≠ { s with top0 := t, left0 := l }) ↔ (t ≠ s.top0 ∨ l ≠ s.left0) := by
  obtain ⟨l0, t0, hh, ww, uu⟩ := s
  simp only [ne_eq, Screen.mk.injEq]
  tauto

theorem fit_char (s : Screen) (b : Buffer) (pos : Nat × Nat) :
    ((s.fit b pos).1).top0 = (if pos.2 < s.top0 then pos.2
      else if s.bottom < pos.2 then pos.2 - (s.height - 1) else s.top0) ∧
    ((s.fit b pos).2 = true ↔
      ((s.fit b pos).1).top0 ≠ s.top0 ∨ ((s.fit b pos).1).left0 ≠ s.left0) := by
  obtain ⟨l0, t0, hh, ww, uu⟩ := s
  unfold Screen.fit
  cases hget : b.get pos.2 <;>
    simp only [hget] <;>
    split_ifs <;>
    simp_all [Screen.bottom, Screen.right, Screen.mk.injEq,
      decide_eq_true_iff] <;>
    tauto

/-- C8: `fit` leaves `top` alone when the row is inside the vertical window,
snaps `top` to `pos.y` when the cursor is above it, snaps the row to the
bottom edge (`top = pos.y - (height-1)`) when below it, and returns `true`
exactly when the viewport origin moved; with a height-3 viewport at top 0
over 5 rows, fitting to row 4 sets `top = 2`.  (Hypotheses: non-degenerate
height, and `fitXSafe` excluding the horizontal `usize`-underflow geometry
on which the source would panic.) -/
theorem screen_fit_contract :
    (∀ (s : Screen) (b : Buffer) (pos : Nat × Nat),
      0 < s.height → fitXSafe s b pos = true →
      (pos.2 < s.top0 → ((s.fit b pos).1).top0 = pos.2) ∧
      (s.top0 ≤ pos.2 → pos.2 ≤ s.top0 + s.height - 1 →
          ((s.fit b pos).1).top0 = s.top0) ∧
      (s.top0 + s.height - 1 < pos.2 →
          ((s.fit b pos).1).top0 = pos.2 - (s.height - 1)) ∧
      ((s.fit b pos).2 = true ↔
          ((s.fit b pos).1).top0 ≠ s.top0 ∨ ((s.fit b pos).1).left0 ≠ s.left0)) ∧
    ((Screen.mk 0 0 3 10 false).fit (mkBuf [[], [], [], [], []]) (0, 4)).1.top0 = 2 := by
  constructor
  · intro s b pos hh _hx
    obtain ⟨htop, hmoved⟩ := fit_char s b pos
    have hb : s.bottom = s.top0 + (s.height - 1) := rfl
    refine ⟨?_, ?_, ?_, hmoved⟩
    · intro h
      rw [htop, if_pos h]
    · intro h1 h2
      rw [htop, if_neg (by omega), if_neg (by omega)]
    · intro h
      rw [htop, if_neg (by omega), if_pos (by omega)]
  · decide

/-- C8 witness: the scenario input satisfies the hypotheses and pins the
cursor row to the bottom edge. -/
theorem screen_fit_contract_witness :
    ((Screen.mk 0 0 3 10 false).fit (mkBuf [[], [], [], [], []]) (0, 4)).1.top0
        = (4 : Nat) - (3 - 1) :=
  (screen_fit_contract.1 (Screen.mk 0 0 3 10 false) (mkBuf [[], [], [], [], []])
      (0, 4) (by decide) (by decide)).2.2.1 (by decide)

/-! ### Cursor clamp invariant (C4) -/

theorem rowCharLen_fst (b : Buffer) (x y : Nat) :
    b.rowCharLen (x, y) = lenAt b y := rfl

theorem lenAt_get (b : Buffer) (y : Nat) (r : Row) (h : b.get y = some r) :
    lenAt b y = r.len := by
  unfold lenAt
  unfold Buffer.get at h
  rw [h]

theorem clampX_full (c : Cursor) (b : Buffer) (hy : c.y0 ≤ b.rowsLen) :
    (c.moveToXmaxIfoverflow b).inv b := by
  unfold Cursor.moveToXmaxIfoverflow Cursor.inv
  by_cases h : b.rowCharLen (c.x0, c.y0) < c.x0
  · rw [if_pos h]
    exact ⟨le_refl _, hy⟩
  · rw [if_neg h]
    exact ⟨Nat.le_of_not_lt h, hy⟩

theorem clampX_y0 (c : Cursor) (b : Buffer) :
    (c.moveToXmaxIfoverflow b).y0 = c.y0 := by
  unfold Cursor.moveToXmaxIfoverflow
  split <;> rfl

theorem clampY_bound (c : Cursor) (b : Buffer) :
    (c.moveToYmaxIfoverflow b).y0 ≤ b.rowsLen ∧
    (c.moveToYmaxIfoverflow b).x0 = c.x0 := by
  unfold Cursor.moveToYmaxIfoverflow
  by_cases h : b.rowsLen < c.y0
  · rw [if_pos h]
    exact ⟨le_refl _, rfl⟩
  · rw [if_neg h]
    exact ⟨Nat.le_of_not_lt h, rfl⟩

theorem renderForward_le (row : Row) (render x : Nat) (h : x ≤ row.len) :
    Cursor.renderForward row render x ≤ row.len := by
  rw [Cursor.renderForward]
  split
  · next hc => exact renderForward_le row render (x + 1) hc.1
  · exact h
termination_by row.len - x
decreasing_by
  rename_i hc
  omega

theorem renderBackward_le (row : Row) (render x : Nat) :
    Cursor.renderBackward row render x ≤ x := by
  rw [Cursor.renderBackward]
  split
  · next hc => exact Nat.le_trans (renderBackward_le row render (x - 1)) (by omega)
  · exact le_refl x
termination_by x
decreasing_by
  rename_i hc
  omega

theorem moveRenderToX_inv (c : Cursor) (b : Buffer) (render : Nat)
    (h : c.inv b) : (c.moveRenderToX b render).inv b := by
  unfold Cursor.moveRenderToX
  cases hget : b.get c.y0 with
  | none => exact h
  | some row =>
      obtain ⟨h1, h2⟩ := h
      rw [rowCharLen_fst, lenAt_get b c.y0 row hget] at h1
      refine ⟨?_, h2⟩
      rw [rowCharLen_fst, lenAt_get b c.y0 row hget]
      exact Nat.le_trans (renderBackward_le row render _) (renderForward_le row render c.x0 h1)

theorem moveDown_inv (c : Cursor) (b : Buffer) (h : c.inv b) :
    (c.moveDown b).1.inv b := by
  unfold Cursor.moveDown
  dsimp only
  by_cases hy : c.y0 < b.rowsLen
  · rw [if_pos hy]
    exact clampX_full _ b hy
  · rw [if_neg hy]
    exact h

theorem moveUp_inv (c : Cursor) (b : Buffer) (h : c.inv b) :
    (c.moveUp b).1.inv b := by
  unfold Cursor.moveUp
  dsimp only
  by_cases hy : 0 < c.y0
  · rw [if_pos hy]
    exact clampX_full _ b (by have := h.2; simp only; omega)
  · rw [if_neg hy]
    exact h

theorem moveLeft_inv (c : Cursor) (b : Buffer) (h : c.inv b) :
    (c.moveLeft b).1.inv b := by
  obtain ⟨h1, h2⟩ := h
  rw [rowCharLen_fst] at h1
  unfold Cursor.moveLeft
  dsimp only
  by_cases hx : 0 < c.x0
  · rw [if_pos hx]
    exact ⟨by rw [rowCharLen_fst]; simp only; omega, h2⟩
  · rw [if_neg hx]
    by_cases hy : 0 < c.y0
    · rw [if_pos hy]
      exact ⟨le_refl _, by simp only; omega⟩
    · rw [if_neg hy]
      exact ⟨by rw [rowCharLen_fst]; exact h1, h2⟩

theorem moveRight_inv (c : Cursor) (b : Buffer) (h : c.inv b) :
    (c.moveRight b).1.inv b := by
  obtain ⟨h1, h2⟩ := h
  rw [rowCharLen_fst] at h1
  unfold Cursor.moveRight
  dsimp only
  by_cases hx : c.x0 < b.rowCharLen (c.x0, c.y0)
  · rw [if_pos hx]
    rw [rowCharLen_fst] at hx
    exact ⟨by rw [rowCharLen_fst]; simp only; omega, h2⟩
  · rw [if_neg hx]
    by_cases hy : c.y0 < b.rowsLen
    · rw [if_pos hy]
      exact ⟨Nat.zero_le _, by simp only; omega⟩
    · rw [if_neg hy]
      exact ⟨by rw [rowCharLen_fst]; exact h1, h2⟩

theorem moveDownRender_inv (c : Cursor) (b : Buffer) (h : c.inv b) :
    (c.moveDownRender b).1.inv b := by
  unfold Cursor.moveDownRender
  dsimp only
  exact moveRenderToX_inv _ b _ (moveDown_inv c b h)

theorem moveUpRender_inv (c : Cursor) (b : Buffer) (h : c.inv b) :
    (c.moveUpRender b).1.inv b := by
  unfold Cursor.moveUpRender
  dsimp only
  exact moveRenderToX_inv _ b _ (moveUp_inv c b h)

theorem moveDownScreen_inv (c : Cursor) (b : Buffer) (scr : Screen)
    (_h : c.inv b) : (c.moveDownScreen b scr).1.inv b := by
  unfold Cursor.moveDownScreen
  dsimp only
  exact clampX_full _ b (clampY_bound ({ c with y0 := c.y0 + scr.height }) b).1

theorem moveUpScreen_inv (c : Cursor) (b : Buffer) (scr : Screen)
    (h : c.inv b) : (c.moveUpScreen b scr).1.inv b := by
  unfold Cursor.moveUpScreen
  dsimp only
  apply clampX_full
  have := h.2
  split <;> simp only <;> omega

theorem moveToX0_inv (c : Cursor) (b : Buffer) (h : c.inv b) :
    (c.moveToX0).1.inv b := by
  unfold Cursor.moveToX0
  exact ⟨Nat.zero_le _, h.2⟩

theorem moveToXmax_inv (c : Cursor) (b : Buffer) (h : c.inv b) :
    (c.moveToXmax b).1.inv b := by
  unfold Cursor.moveToXmax
  exact ⟨le_refl _, h.2⟩

theorem setY_inv (c : Cursor) (b : Buffer) (y : Nat) :
    (c.setY b y).1.inv b := by
  unfold Cursor.setY
  dsimp only
  exact clampX_full _ b (clampY_bound _ b).1

theorem setX_inv (c : Cursor) (b : Buffer) (x : Nat) (hy : c.y0 ≤ b.rowsLen) :
    (c.setX b x).1.inv b := by
  unfold Cursor.setX
  dsimp only
  exact clampX_full _ b hy

theorem set_inv (c : Cursor) (b : Buffer) (at_ : Nat × Nat) :
    (c.set b at_).1.inv b := by
  unfold Cursor.set
  dsimp only
  exact setX_inv _ b at_.1 (by
    have h := setY_inv c b at_.2
    exact h.2)

/-- C4: every Cursor mutator preserves the clamp invariant
`x ≤ row_char_len(y) ∧ y ≤ rows()`. -/
theorem cursor_clamp_invariant (b : Buffer) (c : Cursor) (scr : Screen)
    (h : c.inv b) :
    ((c.moveLeft b).1.inv b) ∧ ((c.moveRight b).1.inv b) ∧
    ((c.moveUp b).1.inv b) ∧ ((c.moveDown b).1.inv b) ∧
    ((c.moveUpRender b).1.inv b) ∧ ((c.moveDownRender b).1.inv b) ∧
    ((c.moveUpScreen b scr).1.inv b) ∧ ((c.moveDownScreen b scr).1.inv b) ∧
    ((c.moveToX0).1.inv b) ∧ ((c.moveToXmax b).1.inv b) ∧
    (∀ at_ : Nat × Nat, (c.set b at_).1.inv b) ∧
    (∀ x, (c.setX b x).1.inv b) ∧ (∀ y, (c.setY b y).1.inv b) :=
  ⟨moveLeft_inv c b h, moveRight_inv c b h, moveUp_inv c b h,
   moveDown_inv c b h, moveUpRender_inv c b h, moveDownRender_inv c b h,
   moveUpScreen_inv c b scr h, moveDownScreen_inv c b scr h,
   moveToX0_inv c b h, moveToXmax_inv c b h,
   fun at_ => set_inv c b at_, fun x => setX_inv c b x h.2,
   fun y => setY_inv c b y⟩

/-- C4 witness: the invariant is preserved from a concrete valid state. -/
theorem cursor_clamp_invariant_witness :
    ((Cursor.mk 1 0).moveRight (mkBuf [['a', 'b']])).1.inv (mkBuf [['a', 'b']]) ∧
    ((Cursor.mk 1 0).set (mkBuf [['a', 'b']]) (7, 9)).1.inv (mkBuf [['a', 'b']]) :=
  ⟨(cursor_clamp_invariant (mkBuf [['a', 'b']]) (Cursor.mk 1 0) {} (by decide)).2.1,
   (cursor_clamp_invariant (mkBuf [['a', 'b']]) (Cursor.mk 1 0) {} (by decide)).2.2.2.2.2.2.2.2.2.2.1 (7, 9)⟩

/-! ### Forward search (C7) -/

theorem charFind_le (hay kw : List Char) (i : Nat) (h : charFind hay kw = some i) :
    i ≤ hay.length := by
  induction hay generalizing i with
  | nil =>
      unfold charFind at h
      split at h
      · simp at h
        omega
      · simp at h
  | cons a t ih =>
      unfold charFind at h
      split at h
      · simp at h
        omega
      · simp only [Option.map_eq_some'] at h
        obtain ⟨j, hj, hij⟩ := h
        have := ih j hj
        simp only [List.length_cons]
        omega

theorem utf8Len_ascii (l : List Char) (h : ∀ c ∈ l, c.utf8Size = 1) :
    utf8Len l = l.length := by
  induction l with
  | nil => rfl
  | cons a t ih =>
      unfold utf8Len at *
      simp only [List.map_cons, List.sum_cons, List.length_cons]
      rw [h a (by simp), ih (fun c hc => h c (by simp [hc]))]
      omega

theorem strFind_ascii (hay kw : List Char) (h : ∀ c ∈ hay, c.utf8Size = 1) :
    strFind hay kw = charFind hay kw := by
  unfold strFind
  cases hc : charFind hay kw with
  | none => rfl
  | some i =>
      have hi := charFind_le hay kw i hc
      simp only [Option.map_some']
      rw [utf8Len_ascii _ (fun c hc' => h c (List.mem_of_mem_take hc')),
        List.length_take, Nat.min_eq_left hi]

theorem findAtGo_ascii (kw : List Char) (rs : List Row) (y skip : Nat)
    (h : ∀ r ∈ rs, ∀ c ∈ r.column, c.utf8Size = 1) :
    findAtGo kw rs y skip = findAtSpecGo kw rs y skip := by
  induction rs generalizing y skip with
  | nil => rfl
  | cons r t ih =>
      unfold findAtGo findAtSpecGo
      have hr : Row.toStringAt r skip = r.column.drop skip := rfl
      rw [hr, strFind_ascii _ kw
        (fun c hc => h r (by simp) c (List.mem_of_mem_drop hc))]
      cases charFind (r.column.drop skip) kw with
      | none => exact ih (y + 1) 0 (fun r' hr' c hc => h r' (by simp [hr']) c hc)
      | some x => rfl

/-- C7 (amended): `find_at` scans rows forward from `at.y`, skipping the
first `at.x` characters of the first row; the reported `x` is the UTF-8
BYTE offset of the first occurrence in the scanned portion plus the skip
count, which coincides with the claim's character offset whenever the
buffer holds only single-byte characters; on `["abc","abc"]`,
`find_at((0,0),"bc") = Some((1,0))`. -/
theorem find_at_contract :
    (∀ (b : Buffer) (at_ : Nat × Nat) (kw : List Char), b.asciiOnly →
        b.findAt at_ kw = b.findAtSpec at_ kw) ∧
    (mkBuf [['a', 'b', 'c'], ['a', 'b', 'c']]).findAt (0, 0) ['b', 'c']
        = some (1, 0) := by
  constructor
  · intro b at_ kw h
    unfold Buffer.findAt Buffer.findAtSpec
    exact findAtGo_ascii kw _ at_.2 at_.1
      (fun r hr => h r (List.mem_of_mem_drop hr))
  · decide

/-- C7 counterexample: with a CJK character before the match, `find_at`
reports the byte offset 3, not the character offset 1 the claim states. -/
theorem find_at_counterexample :
    (mkBuf [['あ', 'b', 'c']]).findAt (0, 0) ['b', 'c'] = some (3, 0) ∧
    (mkBuf [['あ', 'b', 'c']]).findAtSpec (0, 0) ['b', 'c'] = some (1, 0) ∧
    ((3, 0) : Nat × Nat) ≠ (1, 0) := by decide

/-- C7 witness: byte and character offsets agree on an ASCII buffer with a
nonzero skip. -/
theorem find_at_contract_witness :
    (mkBuf [['a', 'b', 'c'], ['a', 'b', 'c']]).findAt (2, 0) ['b', 'c']
      = (mkBuf [['a', 'b', 'c'], ['a', 'b', 'c']]).findAtSpec (2, 0) ['b', 'c'] :=
  find_at_contract.1 (mkBuf [['a', 'b', 'c'], ['a', 'b', 'c']]) (2, 0) ['b', 'c']
    (by decide)

/-! ### Out-of-bounds arguments (C2) -/

theorem rowCharLen_eq_lenAt (b : Buffer) (p : Nat × Nat) :
    b.rowCharLen p = lenAt b p.2 := rfl

theorem appendRow_oob (b : Buffer) (at_ : Nat × Nat) (text : List Char)
    (h : b.rowsLen ≤ at_.2) : b.appendRow at_ text = b := by
  unfold Buffer.appendRow Buffer.appendRowBypass
  rw [List.getElem?_eq_none h]

theorem deleteRow_oob (b : Buffer) (at_ : Nat × Nat)
    (h : b.rowsLen ≤ at_.2) : b.deleteRow at_ = (none, b) := by
  unfold Buffer.deleteRow Buffer.deleteRowBypass
  rw [List.getElem?_eq_none h]

theorem deleteChar_oob (b : Buffer) (at_ : Nat × Nat)
    (h : at_.1 = 0 ∨ b.rowCharLen at_ < at_.1 ∨ b.rowsLen ≤ at_.2) :
    b.deleteChar at_ = b := by
  unfold Buffer.deleteChar Buffer.deleteCharBypass
  cases hget : b.rows[at_.2]? with
  | none => rfl
  | some r =>
      have hcond : ¬(0 < at_.1 ∧ at_.1 ≤ r.len) := by
        rcases h with h | h | h
        · omega
        · rw [rowCharLen_eq_lenAt, lenAt_get b at_.2 r hget] at h
          omega
        · rw [List.getElem?_eq_none h] at hget
          simp at hget
      simp [hcond]

theorem insertChar_oob (b : Buffer) (at_ : Nat × Nat) (ch : Char)
    (h : b.rowCharLen at_ < at_.1 ∨ b.rowsLen ≤ at_.2) :
    b.insertChar at_ ch = b := by
  unfold Buffer.insertChar Buffer.insertCharBypass
  cases hget : b.rows[at_.2]? with
  | none => rfl
  | some r =>
      have hcond : ¬(at_.1 ≤ r.len) := by
        rcases h with h | h
        · rw [rowCharLen_eq_lenAt, lenAt_get b at_.2 r hget] at h
          omega
        · rw [List.getElem?_eq_none h] at hget
          simp at hget
      simp [hcond]

theorem deleteCharsNoneGo_oob (sx sy ex ey : Nat) (idxs : List Nat) (b : Buffer)
    (rs : List Row) (last : Row) (h : ∀ i ∈ idxs, b.rows.length ≤ i) :
    Buffer.deleteCharsNoneGo sx sy ex ey idxs (b, rs, last) = (b, rs, last) := by
  induction idxs with
  | nil => rfl
  | cons i t ih =>
      unfold Buffer.deleteCharsNoneGo
      rw [List.getElem?_eq_none (h i (by simp))]
      exact ih (fun j hj => h j (by simp [hj]))

theorem deleteChars_oob_y (b : Buffer) (s e : Nat × Nat) (mode : SelectMode)
    (h1 : s.2 ≤ e.2) (h2 : b.rowsLen ≤ s.2) : b.deleteChars s e mode = b := by
  have h2' : b.rows.length ≤ s.2 := h2
  have hby : b.deleteCharsBypass s e mode = (none, b) := by
    unfold Buffer.deleteCharsBypass
    cases mode with
    | None =>
        have hnone : b.deleteCharsNone s e = ([], b) := by
          unfold Buffer.deleteCharsNone
          by_cases hse : s.2 = e.2
          · rw [if_pos hse, List.getElem?_eq_none h2]
          · rw [if_neg hse, deleteCharsNoneGo_oob s.1 s.2 e.1 e.2 _ b [] default
              (fun i hi => by
                rw [List.mem_reverse] at hi
                have := List.mem_range'_1.1 hi
                omega)]
        rw [hnone]
        rfl
    | Rectangle =>
        have hrect : b.deleteCharsRectangle s e = ([], b) := by
          unfold Buffer.deleteCharsRectangle
          rw [if_neg (by omega)]
        rw [hrect]
        rfl
  unfold Buffer.deleteChars
  rw [hby]

theorem deleteChars_oob_x (b : Buffer) (s e : Nat × Nat) (hse : s.2 = e.2)
    (h : lenAt b s.2 ≤ s.1 ∨ lenAt b s.2 < e.1) : b.deleteChars s e .None = b := by
  have hby : b.deleteCharsBypass s e .None = (none, b) := by
    unfold Buffer.deleteCharsBypass
    have hnone : b.deleteCharsNone s e = ([], b) := by
      unfold Buffer.deleteCharsNone
      rw [if_pos hse]
      cases hget : b.rows[s.2]? with
      | none => rfl
      | some r =>
          rw [lenAt_get b s.2 r hget] at h
          by_cases hx : s.1 < r.len
          · rcases h with h | h
            · omega
            · have hr : Row.removeRange r s.1 e.1 = none := by
                unfold Row.removeRange
                rw [if_neg (by have hc : r.column.length = r.len := rfl; omega)]
              simp [hx, hr]
          · simp [hx]
    rw [hnone]
    rfl
  unfold Buffer.deleteChars
  rw [hby]

theorem insertChars_oob_y (b : Buffer) (at_ : Nat × Nat) (rows : List Row)
    (h : b.rowsLen ≤ at_.2) : b.insertChars at_ rows .None = (none, b) := by
  unfold Buffer.insertChars Buffer.insertCharsBypass Buffer.insertCharsNone
  rw [List.getElem?_eq_none h]

theorem insertChars_oob_x (b : Buffer) (at_ : Nat × Nat) (r : Row)
    (h : lenAt b at_.2 < at_.1) : b.insertChars at_ [r] .None = (none, b) := by
  unfold Buffer.insertChars Buffer.insertCharsBypass Buffer.insertCharsNone
  cases hget : b.rows[at_.2]? with
  | none => rfl
  | some row =>
      have hcond : ¬(at_.1 ≤ row.len) := by
        rw [lenAt_get b at_.2 row hget] at h
        omega
      simp [hcond]

theorem insertChars_empty (b : Buffer) (at_ : Nat × Nat) (mode : SelectMode) :
    b.insertChars at_ [] mode = (none, b) := by
  cases mode with
  | None =>
      unfold Buffer.insertChars Buffer.insertCharsBypass Buffer.insertCharsNone
      cases b.rows[at_.2]? <;> rfl
  | Rectangle =>
      unfold Buffer.insertChars Buffer.insertCharsBypass
        Buffer.insertCharsRectangle Buffer.insertCharsRectGo
      simp

theorem replace_oob (b : Buffer) (at_ : Nat × Nat) (length : Nat)
    (text : List Char)
    (h : b.rowsLen ≤ at_.2 ∨ lenAt b at_.2 < at_.1 + length) :
    b.replace at_ length text = (none, b) := by
  unfold Buffer.replace Buffer.replaceBypass
  cases hget : b.rows[at_.2]? with
  | none => rfl
  | some r =>
      have hlen : r.column.length < at_.1 + length := by
        rcases h with h | h
        · rw [List.getElem?_eq_none h] at hget
          simp at hget
        · rw [lenAt_get b at_.2 r hget] at h
          exact h
      have hr : Row.replace r at_.1 length text = none := by
        unfold Row.replace Row.removeRange
        rw [if_neg (by omega)]
      simp [hr]

theorem shrinkRow_oob (b : Buffer) (at_ : Nat × Nat)
    (h : b.rowsLen ≤ at_.2) : b.shrinkRow at_ = b := by
  unfold Buffer.shrinkRow Buffer.shrinkRowBypass
  rw [List.getElem?_eq_none h]

theorem splitRow_oob (b : Buffer) (at_ : Nat × Nat)
    (h : b.rowsLen ≤ at_.2) : b.splitRow at_ = b := by
  unfold Buffer.splitRow Buffer.splitRowBypass
  rw [List.getElem?_eq_none h]

theorem squashRow_oob (b : Buffer) (at_ : Nat × Nat)
    (h : at_.2 = 0 ∨ b.rowsLen ≤ at_.2) : b.squashRow at_ = b := by
  unfold Buffer.squashRow Buffer.squashRowBypass
  rcases h with h | h
  · rw [if_neg (by omega)]
  · by_cases h0 : 0 < at_.2
    · rw [if_pos h0]
      unfold Buffer.deleteRowBypass
      rw [List.getElem?_eq_none h]
    · rw [if_neg h0]

/-- C2 (amended): the mutators `append_row`, `delete_row`, `delete_char`,
`insert_char`, `replace`, `shrink_row`, `split_row`, `squash_row`, plus
`delete_chars` with an out-of-bounds start row (both modes) or an
out-of-bounds same-row column range, and `insert_chars` in `None` mode with
an out-of-bounds row / single-row column / empty slice, all treat
out-of-bounds coordinate or length arguments as silent no-ops: they return
`None` (or plain `self`) with rows, dirty flag, updated ranges, history and
pending all unchanged.  (Exceptions proved elsewhere: `insert_row` panics
for `y > rows()`; `shrink_row`/`split_row` panic for `x >` row length;
`delete_chars` in Rectangle mode underflows for `end.x < start.x`, and in
`None` mode panics for a same-row reversed range below the row length;
multi-row `insert_chars` at `x >` row length partially mutates.) -/
theorem oob_silent_noop :
    (∀ (b : Buffer) (at_ : Nat × Nat) (text : List Char),
        b.rowsLen ≤ at_.2 → b.appendRow at_ text = b) ∧
    (∀ (b : Buffer) (at_ : Nat × Nat),
        b.rowsLen ≤ at_.2 → b.deleteRow at_ = (none, b)) ∧
    (∀ (b : Buffer) (at_ : Nat × Nat),
        at_.1 = 0 ∨ b.rowCharLen at_ < at_.1 ∨ b.rowsLen ≤ at_.2 →
        b.deleteChar at_ = b) ∧
    (∀ (b : Buffer) (at_ : Nat × Nat) (ch : Char),
        b.rowCharLen at_ < at_.1 ∨ b.rowsLen ≤ at_.2 →
        b.insertChar at_ ch = b) ∧
    (∀ (b : Buffer) (s e : Nat × Nat) (mode : SelectMode),
        s.2 ≤ e.2 → b.rowsLen ≤ s.2 → b.deleteChars s e mode = b) ∧
    (∀ (b : Buffer) (s e : Nat × Nat), s.2 = e.2 →
        lenAt b s.2 ≤ s.1 ∨ lenAt b s.2 < e.1 → b.deleteChars s e .None = b) ∧
    (∀ (b : Buffer) (at_ : Nat × Nat) (rows : List Row),
        b.rowsLen ≤ at_.2 → b.insertChars at_ rows .None = (none, b)) ∧
    (∀ (b : Buffer) (at_ : Nat × Nat) (r : Row),
        lenAt b at_.2 < at_.1 → b.insertChars at_ [r] .None = (none, b)) ∧
    (∀ (b : Buffer) (at_ : Nat × Nat) (mode : SelectMode),
        b.insertChars at_ [] mode = (none, b)) ∧
    (∀ (b : Buffer) (at_ : Nat × Nat) (length : Nat) (text : List Char),
        b.rowsLen ≤ at_.2 ∨ lenAt b at_.2 < at_.1 + length →
        b.replace at_ length text = (none, b)) ∧
    (∀ (b : Buffer) (at_ : Nat × Nat),
        b.rowsLen ≤ at_.2 → b.shrinkRow at_ = b) ∧
    (∀ (b : Buffer) (at_ : Nat × Nat),
        b.rowsLen ≤ at_.2 → b.splitRow at_ = b) ∧
    (∀ (b : Buffer) (at_ : Nat × Nat),
        at_.2 = 0 ∨ b.rowsLen ≤ at_.2 → b.squashRow at_ = b) :=
  ⟨appendRow_oob, deleteRow_oob, deleteChar_oob, insertChar_oob,
   deleteChars_oob_y, deleteChars_oob_x, insertChars_oob_y, insertChars_oob_x,
   insertChars_empty, replace_oob, shrinkRow_oob, splitRow_oob, squashRow_oob⟩

/-- C2 counterexample: `insert_row` at `y > rows()` violates `Vec::insert`'s
`index <= len` precondition (a panic, not a silent no-op), and multi-row
`insert_chars` at an out-of-bounds in-row `x` mutates the buffer and records
history. -/
theorem oob_silent_noop_counterexample :
    Buffer.insertRowPanics (mkBuf [['a']]) (0, 2) = true ∧
    ((mkBuf [['a']]).insertChars (2, 0) [⟨['b']⟩, ⟨['c']⟩] .None).2.rows
        ≠ (mkBuf [['a']]).rows ∧
    ((mkBuf [['a']]).insertChars (2, 0) [⟨['b']⟩, ⟨['c']⟩] .None).2.history.length
        = 1 := by decide

/-- C2 witness: three of the no-op contracts evaluated at concrete
out-of-bounds inputs. -/
theorem oob_silent_noop_witness :
    (mkBuf [['a']]).appendRow (0, 1) ['b'] = mkBuf [['a']] ∧
    (mkBuf [['a', 'b']]).deleteChar (3, 0) = mkBuf [['a', 'b']] ∧
    (mkBuf [['a', 'b']]).deleteChars (1, 1) (2, 1) .None = mkBuf [['a', 'b']] :=
  ⟨oob_silent_noop.1 (mkBuf [['a']]) (0, 1) ['b'] (by decide),
   oob_silent_noop.2.2.1 (mkBuf [['a', 'b']]) (3, 0) (by decide),
   oob_silent_noop.2.2.2.2.1 (mkBuf [['a', 'b']]) (1, 1) (2, 1) .None (by decide) (by decide)⟩

/-! ### Undo inverts single recorded mutations (C1) -/

theorem undo_empty (b : Buffer) (h : b.history = []) : b.undo = (none, b) := by
  unfold Buffer.undo
  rw [h]

theorem undo_appendRow (b : Buffer) (at_ : Nat × Nat) (text : List Char) (r : Row)
    (hget : b.rows[at_.2]? = some r) :
    ((b.appendRow at_ text).undo).1 = some at_ ∧
    ((b.appendRow at_ text).undo).2.rows = b.rows := by
  have hlt : at_.2 < b.rows.length := (List.getElem?_eq_some_iff.1 hget).1
  constructor
  · simp [Buffer.appendRow, Buffer.appendRowBypass, hget, Buffer.record, Buffer.undo]
  · simp only [Buffer.appendRow, Buffer.appendRowBypass, hget, Buffer.record,
      Buffer.undo, Buffer.shrinkRowBypass, Row.splitOff, Row.append,
      List.getElem?_set_self hlt, List.set_set]
    rw [take_append_len r.column text r.len rfl]
    exact set_self b.rows at_.2 r hget

theorem insertIdx_eraseIdx_self {α} (l : List α) (i : Nat) (x : α)
    (h : l[i]? = some x) : (l.eraseIdx i).insertIdx i x = l := by
  induction l generalizing i with
  | nil => simp at h
  | cons a t ih =>
      cases i with
      | zero => simp_all
      | succ n => simp_all [List.eraseIdx_cons_succ, List.insertIdx_succ_cons]

theorem getElem?_insertIdx_len {α} (l : List α) (i : Nat) (x : α)
    (h : i ≤ l.length) : (l.insertIdx i x)[i]? = some x := by
  induction l generalizing i with
  | nil =>
      cases i with
      | zero => rfl
      | succ n => simp at h
  | cons a t ih =>
      cases i with
      | zero => rfl
      | succ n => simp_all [List.insertIdx_succ_cons]

theorem undo_deleteRow (b : Buffer) (at_ : Nat × Nat) (r : Row)
    (hget : b.rows[at_.2]? = some r) :
    (((b.deleteRow at_).2).undo).1 = some at_ ∧
    (((b.deleteRow at_).2).undo).2.rows = b.rows := by
  constructor
  · simp [Buffer.deleteRow, Buffer.deleteRowBypass, hget, Buffer.record, Buffer.undo]
  · simp only [Buffer.deleteRow, Buffer.deleteRowBypass, hget, Buffer.record,
      Buffer.undo, Buffer.insertRowBypass]
    exact insertIdx_eraseIdx_self b.rows at_.2 r hget

theorem undo_insertRow (b : Buffer) (at_ : Nat × Nat) (text : List Char)
    (h : at_.2 ≤ b.rowsLen) :
    ((b.insertRow at_ text).undo).1 = some at_ ∧
    ((b.insertRow at_ text).undo).2.rows = b.rows := by
  constructor
  · simp [Buffer.insertRow, Buffer.insertRowBypass, Buffer.record, Buffer.undo]
  · simp only [Buffer.insertRow, Buffer.insertRowBypass, Buffer.record,
      Buffer.undo, Buffer.deleteRowBypass]
    rw [getElem?_insertIdx_len b.rows at_.2 ⟨text⟩ h]
    dsimp only
    exact List.eraseIdx_insertIdx at_.2 b.rows

theorem row_remove_insert (r : Row) (x : Nat) (h1 : 0 < x) (h2 : x ≤ r.len) :
    (⟨r.column.take (x - 1) ++ r.column.drop x⟩ : Row).insert (x - 1)
        r.column[x - 1]! = r := by
  have hlen : r.column.length = r.len := rfl
  have hx : x - 1 < r.column.length := by omega
  have htl : (r.column.take (x - 1)).length = x - 1 := by
    simp only [List.length_take]
    omega
  unfold Row.insert
  rw [if_pos (by simp only [Row.len, List.length_append, htl]; omega)]
  have h3 : (r.column.take (x - 1) ++ r.column.drop x).take (x - 1)
      = r.column.take (x - 1) := take_append_len _ _ _ htl.symm
  have h4 : (r.column.take (x - 1) ++ r.column.drop x).drop (x - 1)
      = r.column.drop x := drop_append_len _ _ _ htl.symm
  simp only [h3, h4]
  have h5 : r.column[x - 1]! = r.column[x - 1] := getElem!_pos r.column (x - 1) hx
  rw [h5]
  have h6 : r.column = r.column.take (x - 1) ++ r.column[x - 1] :: r.column.drop x := by
    conv_lhs => rw [← List.take_append_drop (x - 1) r.column]
    rw [List.drop_eq_getElem_cons hx]
    have : x - 1 + 1 = x := by omega
    rw [this]
  exact congrArg Row.mk h6.symm

theorem undo_deleteChar (b : Buffer) (at_ : Nat × Nat) (r : Row)
    (hget : b.rows[at_.2]? = some r) (h1 : 0 < at_.1) (h2 : at_.1 ≤ r.len) :
    ((b.deleteChar at_).undo).1 = some at_ ∧
    ((b.deleteChar at_).undo).2.rows = b.rows := by
  have hlt2 : at_.2 < b.rows.length := (List.getElem?_eq_some_iff.1 hget).1
  have hlen : r.column.length = r.len := rfl
  have hx : at_.1 - 1 < r.column.length := by omega
  have hc : r.column[at_.1 - 1]? = some r.column[at_.1 - 1] :=
    List.getElem?_eq_some_iff.2 ⟨hx, rfl⟩
  have hrowlen : (r.column.take (at_.1 - 1) ++ r.column.drop at_.1).length
      = r.column.length - 1 := by
    simp only [List.length_append, List.length_take, List.length_drop]
    omega
  constructor
  · simp [Buffer.deleteChar, Buffer.deleteCharBypass, hget, h1, h2, Row.remove,
      hc, Buffer.record, Buffer.undo]
  · simp only [Buffer.deleteChar, Buffer.deleteCharBypass, hget, Row.remove, hc,
      if_pos (And.intro h1 h2), Buffer.record, Buffer.undo,
      Buffer.insertCharBypass, List.getElem?_set_self hlt2]
    have hdrop : at_.1 - 1 + 1 = at_.1 := by omega
    rw [hdrop]
    rw [if_pos (by simp only [Row.len, hrowlen]; omega)]
    dsimp only
    rw [List.set_set]
    have hr := row_remove_insert r at_.1 h1 h2
    rw [getElem!_pos r.column (at_.1 - 1) hx] at hr
    rw [hr]
    exact set_self b.rows at_.2 r hget

theorem getElem?_append_at {α} (Q : List α) (x : α) (S : List α) (n : Nat)
    (h : n = Q.length) : (Q ++ x :: S)[n]? = some x := by
  subst h
  exact getElem?_append_len Q x S

theorem set_append_at {α} (Q : List α) (x y : α) (S : List α) (n : Nat)
    (h : n = Q.length) : (Q ++ x :: S).set n y = Q ++ y :: S := by
  subst h
  exact set_append_len Q x y S

theorem eraseIdx_append_at {α} (Q : List α) (x : α) (S : List α) (n : Nat)
    (h : n = Q.length) : (Q ++ x :: S).eraseIdx n = Q ++ S := by
  subst h
  exact eraseIdx_append_len Q x S

theorem insertIdx_append_at {α} (Q S : List α) (x : α) (n : Nat)
    (h : n = Q.length) : (Q ++ S).insertIdx n x = Q ++ x :: S := by
  subst h
  exact insertIdx_append_len Q S x

theorem undo_insertChar (b : Buffer) (at_ : Nat × Nat) (ch : Char) (r : Row)
    (hget : b.rows[at_.2]? = some r) (h2 : at_.1 ≤ r.len) :
    ((b.insertChar at_ ch).undo).1 = some at_ ∧
    ((b.insertChar at_ ch).undo).2.rows = b.rows := by
  have hlt2 : at_.2 < b.rows.length := (List.getElem?_eq_some_iff.1 hget).1
  have hlen : r.column.length = r.len := rfl
  have htl : (r.column.take at_.1).length = at_.1 := by
    simp only [List.length_take]
    omega
  have hrow1 : r.insert at_.1 ch = ⟨r.column.take at_.1 ++ ch :: r.column.drop at_.1⟩ := by
    unfold Row.insert
    rw [if_pos (show at_.1 ≤ r.column.length by omega)]
  constructor
  · simp [Buffer.insertChar, Buffer.insertCharBypass, hget, h2,
      Buffer.record, Buffer.undo]
  · simp only [Buffer.insertChar, Buffer.insertCharBypass, hget, if_pos h2,
      Buffer.record, Buffer.undo, Buffer.deleteCharBypass,
      List.getElem?_set_self hlt2, hrow1]
    rw [if_pos (by
      refine ⟨by omega, ?_⟩
      simp only [Row.len, List.length_append, List.length_cons,
        List.length_take, List.length_drop]
      omega)]
    have hidx : at_.1 + 1 - 1 = at_.1 := by omega
    unfold Row.remove
    rw [hidx, getElem?_append_at _ ch _ at_.1 htl.symm]
    dsimp only
    rw [take_append_len _ _ _ htl.symm]
    have hregroup : r.column.take at_.1 ++ ch :: r.column.drop at_.1
        = (r.column.take at_.1 ++ [ch]) ++ r.column.drop at_.1 := by simp
    rw [hregroup, drop_append_len _ _ (at_.1 + 1) (by simp [htl])]
    rw [List.set_set]
    have hrr : (⟨r.column.take at_.1 ++ r.column.drop at_.1⟩ : Row) = r :=
      congrArg Row.mk (List.take_append_drop at_.1 r.column)
    rw [hrr]
    exact set_self b.rows at_.2 r hget

theorem undo_shrinkRow (b : Buffer) (at_ : Nat × Nat) (r : Row)
    (hget : b.rows[at_.2]? = some r) (_h2 : at_.1 ≤ r.len) :
    ((b.shrinkRow at_).undo).1 = some at_ ∧
    ((b.shrinkRow at_).undo).2.rows = b.rows := by
  have hlt2 : at_.2 < b.rows.length := (List.getElem?_eq_some_iff.1 hget).1
  constructor
  · simp [Buffer.shrinkRow, Buffer.shrinkRowBypass, hget, Row.splitOff,
      Buffer.record, Buffer.undo]
  · simp only [Buffer.shrinkRow, Buffer.shrinkRowBypass, hget, Row.splitOff,
      Buffer.record, Buffer.undo, Buffer.appendRowBypass,
      List.getElem?_set_self hlt2, List.set_set, Row.append]
    have hrr : (⟨r.column.take at_.1 ++ r.column.drop at_.1⟩ : Row) = r :=
      congrArg Row.mk (List.take_append_drop at_.1 r.column)
    rw [hrr]
    exact set_self b.rows at_.2 r hget

theorem row_replace_some (r : Row) (i len : Nat) (text : List Char)
    (h : i + len ≤ r.column.length) :
    r.replace i len text = some ((r.column.take (i + len)).drop i,
      ⟨r.column.take i ++ text ++ r.column.drop (i + len)⟩) := by
  have htl : (r.column.take i).length = i := by
    simp only [List.length_take]
    omega
  unfold Row.replace Row.removeRange Row.insertSlice
  rw [if_pos h]
  dsimp only
  rw [if_pos (by
    simp only [List.length_append, List.length_take, List.length_drop]
    omega)]
  rw [take_append_len _ _ _ htl.symm, drop_append_len _ _ _ htl.symm]

theorem undo_replace (b : Buffer) (at_ : Nat × Nat) (length : Nat)
    (text : List Char) (r : Row) (hget : b.rows[at_.2]? = some r)
    (h2 : at_.1 + length ≤ r.len) :
    (((b.replace at_ length text).2).undo).1 = some at_ ∧
    (((b.replace at_ length text).2).undo).2.rows = b.rows := by
  have hlt2 : at_.2 < b.rows.length := (List.getElem?_eq_some_iff.1 hget).1
  have hlen : r.column.length = r.len := rfl
  have h2' : at_.1 + length ≤ r.column.length := by omega
  have hrep := row_replace_some r at_.1 length text h2'
  have htl : (r.column.take at_.1).length = at_.1 := by
    simp only [List.length_take]
    omega
  have hmidlen : ((r.column.take (at_.1 + length)).drop at_.1).length
      = length := by
    simp only [List.length_drop, List.length_take]
    omega
  have hrow1len : at_.1 + text.length
      ≤ (r.column.take at_.1 ++ text ++ r.column.drop (at_.1 + length)).length := by
    simp only [List.length_append, List.length_take, List.length_drop]
    omega
  have hrep2 := row_replace_some ⟨r.column.take at_.1 ++ text ++ r.column.drop (at_.1 + length)⟩
      at_.1 text.length ((r.column.take (at_.1 + length)).drop at_.1) hrow1len
  have htk1 : (r.column.take at_.1 ++ text ++ r.column.drop (at_.1 + length)).take at_.1
      = r.column.take at_.1 := by
    rw [List.append_assoc]
    exact take_append_len _ _ _ htl.symm
  have hdk1 : (r.column.take at_.1 ++ text ++ r.column.drop (at_.1 + length)).drop
        (at_.1 + text.length)
      = r.column.drop (at_.1 + length) :=
    drop_append_len _ _ _ (by simp [htl])
  have hfinal : r.column.take at_.1 ++ (r.column.take (at_.1 + length)).drop at_.1
      ++ r.column.drop (at_.1 + length) = r.column := by
    have h1 : r.column.take at_.1 = (r.column.take (at_.1 + length)).take at_.1 := by
      rw [List.take_take, Nat.min_eq_left (by omega)]
    rw [h1, List.take_append_drop, List.take_append_drop]
  constructor
  · simp [Buffer.replace, Buffer.replaceBypass, hget, hrep,
      Buffer.record, Buffer.undo]
  · simp only [Buffer.replace, Buffer.replaceBypass, hget, hrep,
      Buffer.record, Buffer.undo, List.getElem?_set_self hlt2, hrep2]
    rw [htk1, hdk1, List.set_set]
    have hrr : (⟨r.column.take at_.1 ++ (r.column.take (at_.1 + length)).drop at_.1
        ++ r.column.drop (at_.1 + length)⟩ : Row) = r := congrArg Row.mk hfinal
    rw [hrr]
    exact set_self b.rows at_.2 r hget

theorem cursorSet_default (b : Buffer) (x y : Nat) (hy : y ≤ b.rowsLen) :
    ((Cursor.mk 0 0).set b (x, y)).1 = ⟨min x (lenAt b y), y⟩ := by
  unfold Cursor.set Cursor.setY Cursor.setX Cursor.moveToYmaxIfoverflow
    Cursor.moveToXmaxIfoverflow
  dsimp only
  rw [if_neg (show ¬ b.rowsLen < y by omega)]
  simp only [rowCharLen_fst]
  rw [if_neg (Nat.not_lt_zero _)]
  by_cases hlt : lenAt b y < x
  · rw [if_pos hlt, Nat.min_eq_right (by omega)]
  · rw [if_neg hlt, Nat.min_eq_left (by omega)]

theorem cursorSet_y_any (c : Cursor) (b : Buffer) (p : Nat × Nat) :
    ((c.set b p).1).y0 = min p.2 b.rowsLen := by
  unfold Cursor.set Cursor.setY Cursor.setX Cursor.moveToYmaxIfoverflow
    Cursor.moveToXmaxIfoverflow
  dsimp only
  by_cases h : b.rowsLen < p.2
  · rw [if_pos h, Nat.min_eq_right (by omega)]
    split <;> split <;> rfl
  · rw [if_neg h, Nat.min_eq_left (by omega)]
    split <;> split <;> rfl

theorem asCoordinates_y (c : Cursor) : (c.asCoordinates).2 = c.y0 := rfl

theorem appendRowBypass_rows (b : Buffer) (at_ : Nat × Nat) (text : List Char) :
    ((b.appendRowBypass at_ text).2).rows
      = (match b.rows[at_.2]? with
        | some row => b.rows.set at_.2 (row.append text)
        | none => b.rows) := by
  unfold Buffer.appendRowBypass
  cases b.rows[at_.2]? <;> rfl

theorem undo_splitRow (b : Buffer) (at_ : Nat × Nat) (r : Row)
    (hget : b.rows[at_.2]? = some r) (_h2 : at_.1 ≤ r.len) :
    ((b.splitRow at_).undo).1 = some at_ ∧
    ((b.splitRow at_).undo).2.rows = b.rows := by
  have hlt2 : at_.2 < b.rows.length := (List.getElem?_eq_some_iff.1 hget).1
  have hlen1 : (b.rows.set at_.2 (⟨r.column.take at_.1⟩ : Row)).length = b.rows.length := by
    simp
  have hy1 : at_.2 + 1 ≤ (b.rows.set at_.2 (⟨r.column.take at_.1⟩ : Row)).length := by
    omega
  have hset1 := cursorSet_default
    { b with cached := true,
             updated := b.updated ++ [(at_.2, b.rows.length + 1)],
             rows := b.rows.set at_.2 ⟨r.column.take at_.1⟩ }
    at_.1 (at_.2 + 1) hy1
  constructor
  · simp only [Buffer.splitRow, Buffer.splitRowBypass, hget, Row.splitOff,
      hset1, Buffer.insertRowBypass, Cursor.asCoordinates, Buffer.record,
      Buffer.undo]
  · simp only [Buffer.splitRow, Buffer.splitRowBypass, hget, Row.splitOff,
      hset1, Buffer.insertRowBypass, Cursor.asCoordinates, Buffer.record,
      Buffer.undo, Buffer.squashRowBypass]
    rw [if_pos (by omega)]
    unfold Buffer.deleteRowBypass
    rw [getElem?_insertIdx_len _ _ _ hy1]
    dsimp only
    rw [List.eraseIdx_insertIdx]
    simp only [Nat.add_sub_cancel]
    rw [appendRowBypass_rows]
    simp only [Cursor.asCoordinates, cursorSet_y_any, Buffer.rowsLen,
      List.length_set]
    have hmin : min at_.2 b.rows.length = at_.2 := Nat.min_eq_left (by omega)
    rw [hmin, List.getElem?_set_self hlt2]
    dsimp only
    rw [List.set_set]
    simp only [Row.append]
    have hrr : (⟨r.column.take at_.1 ++ r.column.drop at_.1⟩ : Row) = r :=
      congrArg Row.mk (List.take_append_drop at_.1 r.column)
    rw [hrr]
    exact set_self b.rows at_.2 r hget

theorem undo_squashRow (b : Buffer) (at_ : Nat × Nat) (ry prev : Row)
    (hget : b.rows[at_.2]? = some ry) (hprev : b.rows[at_.2 - 1]? = some prev)
    (h0 : 0 < at_.2) :
    ((b.squashRow at_).undo).1 = some at_ ∧
    ((b.squashRow at_).undo).2.rows = b.rows := by
  have hlt : at_.2 < b.rows.length := (List.getElem?_eq_some_iff.1 hget).1
  have herase_len : (b.rows.eraseIdx at_.2).length = b.rows.length - 1 := by
    rw [List.length_eraseIdx, if_pos hlt]
  have hgetE : (b.rows.eraseIdx at_.2)[at_.2 - 1]? = some prev := by
    rw [List.getElem?_eraseIdx_of_lt b.rows at_.2 (at_.2 - 1) (by omega)]
    exact hprev
  have hy1 : at_.2 - 1 ≤ (b.rows.eraseIdx at_.2).length := by omega
  have hset1 := cursorSet_default
    { b with cached := true,
             updated := b.updated ++ [(at_.2, b.rows.length)]
               ++ [(at_.2 - 1, (b.rows.eraseIdx at_.2).length)],
             rows := b.rows.eraseIdx at_.2 }
    at_.1 (at_.2 - 1) hy1
  have hlt3 : at_.2 - 1 < (b.rows.eraseIdx at_.2).length := by omega
  constructor
  · simp only [Buffer.squashRow, Buffer.squashRowBypass, if_pos h0,
      Buffer.deleteRowBypass, hget, hset1, Cursor.asCoordinates,
      Buffer.appendRowBypass, hgetE, Buffer.record, Buffer.undo]
  · simp only [Buffer.squashRow, Buffer.squashRowBypass, if_pos h0,
      Buffer.deleteRowBypass, hget, hset1, Cursor.asCoordinates,
      Buffer.appendRowBypass, hgetE, Buffer.record, Buffer.undo,
      Buffer.splitRowBypass]
    rw [List.getElem?_set_self hlt3]
    dsimp only
    simp only [Row.splitOff, Row.append]
    have hpl : (prev.column.take prev.len).length = prev.len := by
      simp only [List.length_take]
      have : prev.column.length = prev.len := rfl
      omega
    rw [take_append_len prev.column ry.column prev.len rfl,
      drop_append_len prev.column ry.column prev.len rfl]
    rw [List.set_set]
    have hsetp : ((b.rows.eraseIdx at_.2).set (at_.2 - 1) ⟨prev.column⟩)
        = b.rows.eraseIdx at_.2 := set_self _ _ _ hgetE
    rw [hsetp]
    unfold Buffer.insertRowBypass
    dsimp only
    have hsub : at_.2 - 1 + 1 = at_.2 := by omega
    rw [hsub]
    simp only [cursorSet_y_any, Buffer.rowsLen, herase_len]
    have hmin : min at_.2 (b.rows.length - 1) = at_.2 := by
      by_cases hx : at_.2 = b.rows.length - 1
      · omega
      · exact Nat.min_eq_left (by omega)
    rw [hmin]
    exact insertIdx_eraseIdx_self b.rows at_.2 ry hget

theorem deleteCharsNoneGo_append (sx sy ex ey : Nat) (l1 l2 : List Nat)
    (st : Buffer × List Row × Row) :
    Buffer.deleteCharsNoneGo sx sy ex ey (l1 ++ l2) st
      = Buffer.deleteCharsNoneGo sx sy ex ey l2
          (Buffer.deleteCharsNoneGo sx sy ex ey l1 st) := by
  induction l1 generalizing st with
  | nil => rfl
  | cons i t ih =>
      obtain ⟨b, rs, last⟩ := st
      simp only [List.cons_append]
      rw [Buffer.deleteCharsNoneGo]
      conv_rhs => rw [Buffer.deleteCharsNoneGo]
      exact ih _

theorem dcn_go_middles (sx sy ex ey : Nat) (M : List Row) :
    ∀ (Q S rs : List Row) (last : Row) (b : Buffer),
    b.rows = Q ++ M ++ S → sy < Q.length → Q.length + M.length ≤ ey →
    ∃ c u,
      Buffer.deleteCharsNoneGo sx sy ex ey ((List.range' Q.length M.length).reverse)
          (b, rs, last)
        = ({ b with rows := Q ++ S, cached := c, updated := u },
           rs ++ M.reverse, last) := by
  induction M using List.reverseRecOn with
  | nil =>
      intro Q S rs last b hrows hq he
      obtain ⟨brows, bf, bc, bu, bh, bp⟩ := b
      refine ⟨bc, bu, ?_⟩
      have hr : brows = Q ++ S := by simpa using hrows
      subst hr
      simp [Buffer.deleteCharsNoneGo]
  | append_singleton M' m ih =>
      intro Q S rs last b hrows hq he
      simp only [List.length_append, List.length_cons, List.length_nil] at he
      have hrows2 : b.rows = (Q ++ M') ++ m :: S := by
        rw [hrows]
        simp
      have hidx : (List.range' Q.length (M' ++ [m]).length).reverse
          = (Q.length + M'.length) :: (List.range' Q.length M'.length).reverse := by
        simp [List.range'_concat]
      rw [hidx, Buffer.deleteCharsNoneGo, hrows2,
        getElem?_append_at (Q ++ M') m S (Q.length + M'.length) (by simp)]
      dsimp only
      rw [if_neg (by omega), if_neg (by omega)]
      unfold Buffer.deleteRowBypass
      dsimp only
      rw [hrows2, getElem?_append_at (Q ++ M') m S (Q.length + M'.length) (by simp)]
      dsimp only
      rw [eraseIdx_append_at (Q ++ M') m S (Q.length + M'.length) (by simp)]
      obtain ⟨c, u, hih⟩ := ih Q S (rs ++ [m]) last
        { b with cached := true,
                 updated := b.updated ++ [(Q.length + M'.length, ((Q ++ M') ++ m :: S).length)],
                 rows := (Q ++ M') ++ S }
        (by simp) hq (by omega)
      refine ⟨c, u, ?_⟩
      rw [hih]
      simp [List.reverse_append]

theorem insertRowsFrom_rows (M : List Row) :
    ∀ (Q S : List Row) (b : Buffer), b.rows = Q ++ S →
    ∃ c u, Buffer.insertRowsFrom Q.length M b
      = { b with rows := Q ++ M ++ S, cached := c, updated := u } := by
  induction M with
  | nil =>
      intro Q S b hrows
      obtain ⟨brows, bf, bc, bu, bh, bp⟩ := b
      refine ⟨bc, bu, ?_⟩
      have hr : brows = Q ++ S := by simpa using hrows
      subst hr
      simp [Buffer.insertRowsFrom]
  | cons m M' ih =>
      intro Q S b hrows
      rw [Buffer.insertRowsFrom]
      have hins : (b.insertRowBypass (0, Q.length) m.column).rows
          = (Q ++ [m]) ++ S := by
        unfold Buffer.insertRowBypass
        dsimp only
        rw [hrows, insertIdx_append_len]
        simp
      obtain ⟨c, u, hih⟩ := ih (Q ++ [m]) S
        (b.insertRowBypass (0, Q.length) m.column) hins
      rw [show (Q ++ [m]).length = Q.length + 1 from by simp] at hih
      refine ⟨c, u, ?_⟩
      rw [hih]
      simp [Buffer.insertRowBypass]

theorem insertCharsNone_single (sx : Nat) (Q S : List Row) (T f : Row)
    (b : Buffer) (hrows : b.rows = Q ++ T :: S) (hsx : sx ≤ T.len) :
    b.insertCharsNone (sx, Q.length) [f]
      = (some (sx + f.len, Q.length),
         { b with cached := true,
                  rows := Q ++ (T.insertSlice sx f.column) :: S }) := by
  have hgetT : b.rows[Q.length]? = some T := by
    rw [hrows]
    exact getElem?_append_len Q T S
  unfold Buffer.insertCharsNone
  rw [hgetT]
  dsimp only [List.head?]
  rw [if_pos hsx]
  rw [if_neg (by simp : ¬ (1 < ([f] : List Row).length))]
  rw [if_neg (by simp : ¬ (1 < ([f] : List Row).length))]
  dsimp only
  rw [hrows, set_append_len]

theorem insertCharsNone_char (sx : Nat) (Q S M : List Row) (T f lst : Row)
    (b : Buffer) (hrows : b.rows = Q ++ T :: S) (hsx : sx ≤ T.len) :
    ∃ b',
      b.insertCharsNone (sx, Q.length) (f :: (M ++ [lst]))
        = (some (lst.len, Q.length + M.length + 1), b')
      ∧ b'.rows = Q ++ (⟨T.column.take sx ++ f.column⟩ : Row) ::
          (M ++ (⟨lst.column ++ T.column.drop sx⟩ : Row) :: S)
      ∧ b'.filename = b.filename ∧ b'.history = b.history
      ∧ b'.pending = b.pending := by
  have hgetT : b.rows[Q.length]? = some T := by
    rw [hrows]
    exact getElem?_append_len Q T S
  have hlen : (f :: (M ++ [lst])).length = M.length + 2 := by simp
  have h1lt : 1 < (f :: (M ++ [lst])).length := by simp
  have hmid : ((f :: (M ++ [lst])).drop 1).take
      ((f :: (M ++ [lst])).length - 1 - 1) = M := by
    dsimp only [List.drop]
    rw [hlen]
    exact take_append_len M [lst] (M.length + 2 - 1 - 1) (by omega)
  have hlast : (f :: (M ++ [lst])).getLast? = some lst := by
    rw [← List.cons_append]
    exact List.getLast?_concat _
  unfold Buffer.insertCharsNone
  rw [hgetT]
  dsimp only [List.head?]
  simp only [if_pos hsx, if_pos h1lt]
  rw [hmid, hlast]
  dsimp only
  rw [hrows, set_append_len]
  obtain ⟨c, u, hb2⟩ := insertRowsFrom_rows M
    (Q ++ [(T.splitOff sx).1.append f.column]) S
    { b with cached := true,
             rows := Q ++ (T.splitOff sx).1.append f.column :: S }
    (by simp)
  rw [show (Q ++ [(T.splitOff sx).1.append f.column]).length = Q.length + 1
    from by simp] at hb2
  rw [hb2]
  dsimp only
  unfold Buffer.insertRowBypass Buffer.appendRowBypass
  dsimp only
  have hy : Q.length + (f :: (M ++ [lst])).length - 1
      = Q.length + M.length + 1 := by
    rw [hlen]
    omega
  rw [hy]
  rw [insertIdx_append_at ((Q ++ [(T.splitOff sx).1.append f.column]) ++ M) S
      (⟨lst.column⟩ : Row) (Q.length + M.length + 1)
      (by simp only [List.length_append, List.length_cons, List.length_nil]; omega),
    getElem?_append_at ((Q ++ [(T.splitOff sx).1.append f.column]) ++ M)
      (⟨lst.column⟩ : Row) S (Q.length + M.length + 1)
      (by simp only [List.length_append, List.length_cons, List.length_nil]; omega)]
  dsimp only
  rw [set_append_at ((Q ++ [(T.splitOff sx).1.append f.column]) ++ M)
      (⟨lst.column⟩ : Row) _ S (Q.length + M.length + 1)
      (by simp only [List.length_append, List.length_cons, List.length_nil]; omega)]
  refine ⟨_, rfl, ?_, ?_, ?_, ?_⟩
  · simp [Row.append, Row.splitOff]
  · rfl
  · rfl
  · rfl

theorem dcn_go_oob (sx sy ex ey : Nat) (l : List Nat) (b : Buffer)
    (rs : List Row) (last : Row) (h : ∀ i ∈ l, b.rows.length ≤ i) :
    Buffer.deleteCharsNoneGo sx sy ex ey l (b, rs, last) = (b, rs, last) := by
  induction l with
  | nil => rfl
  | cons i t ih =>
      rw [Buffer.deleteCharsNoneGo]
      rw [List.getElem?_eq_none (h i (by simp))]
      exact ih (fun j hj => h j (by simp [hj]))

theorem dcn_go_sy (sx sy ex ey : Nat) (Q S rs : List Row) (R last : Row)
    (b : Buffer) (hrows : b.rows = Q ++ R :: S) (hsy : sy = Q.length) :
    Buffer.deleteCharsNoneGo sx sy ex ey [sy] (b, rs, last)
      = ({ b with rows :=
             Q ++ (⟨R.column.take sx ++ last.column⟩ : Row) :: S },
         rs ++ [(⟨R.column.drop sx⟩ : Row)], last) := by
  subst hsy
  have hget : b.rows[Q.length]? = some R := by
    rw [hrows]
    exact getElem?_append_len Q R S
  have hrem : R.removeRange sx R.len
      = some (R.column.drop sx, (⟨R.column.take sx⟩ : Row)) := by
    unfold Row.removeRange
    rw [if_pos (show R.len ≤ R.column.length from le_refl _)]
    simp [Row.len]
  rw [Buffer.deleteCharsNoneGo]
  rw [hget]
  dsimp only
  rw [if_pos rfl]
  rw [hrem]
  dsimp only
  rw [hrows, set_append_len]
  rw [Buffer.deleteCharsNoneGo]
  simp [Row.append]

theorem dcn_char_full (sx ex : Nat) (Q M S : List Row) (R E : Row)
    (b : Buffer) (hrows : b.rows = Q ++ R :: (M ++ E :: S)) (hex : ex ≤ E.len) :
    ∃ b',
      b.deleteCharsNone (sx, Q.length) (ex, Q.length + M.length + 1)
        = ((⟨E.column.take ex⟩ : Row) ::
             (M.reverse ++ [(⟨R.column.drop sx⟩ : Row)]), b')
      ∧ b'.rows = Q ++ (⟨R.column.take sx ++ E.column.drop ex⟩ : Row) :: S
      ∧ b'.filename = b.filename ∧ b'.history = b.history
      ∧ b'.pending = b.pending := by
  have hrows2 : b.rows = (Q ++ R :: M) ++ E :: S := by
    rw [hrows]
    simp
  have hgE : b.rows[Q.length + M.length + 1]? = some E := by
    rw [hrows2]
    exact getElem?_append_at (Q ++ R :: M) E S (Q.length + M.length + 1)
      (by simp only [List.length_append, List.length_cons]; omega)
  have hremE : E.removeRange 0 ex
      = some (E.column.take ex, (⟨E.column.drop ex⟩ : Row)) := by
    unfold Row.removeRange
    rw [if_pos (show ex ≤ E.column.length from hex)]
    simp
  have hsplit : List.range' Q.length (M.length + 2)
      = Q.length ::
        (List.range' (Q.length + 1) M.length ++ [Q.length + M.length + 1]) := by
    rw [List.range'_succ, List.range'_concat,
      show Q.length + 1 + 1 * M.length = Q.length + M.length + 1 from by omega]
  have hlist : (List.range' Q.length
        (Q.length + M.length + 1 + 1 - Q.length)).reverse
      = (Q.length + M.length + 1) ::
        ((List.range' (Q.length + 1) M.length).reverse ++ [Q.length]) := by
    rw [show Q.length + M.length + 1 + 1 - Q.length = M.length + 2 from by omega,
      hsplit]
    simp
  unfold Buffer.deleteCharsNone
  dsimp only
  rw [if_neg (show ¬ (Q.length = Q.length + M.length + 1) from by omega)]
  rw [hlist]
  rw [Buffer.deleteCharsNoneGo]
  rw [hgE]
  dsimp only
  rw [if_neg (show ¬ (Q.length + M.length + 1 = Q.length) from by omega),
    if_pos rfl]
  rw [hremE]
  dsimp only
  rw [hrows2, set_append_at (Q ++ R :: M) E _ S (Q.length + M.length + 1)
    (by simp only [List.length_append, List.length_cons]; omega)]
  unfold Buffer.deleteRowBypass
  dsimp only
  rw [getElem?_append_at (Q ++ R :: M) (⟨E.column.drop ex⟩ : Row) S
    (Q.length + M.length + 1)
    (by simp only [List.length_append, List.length_cons]; omega)]
  dsimp only
  rw [eraseIdx_append_at (Q ++ R :: M) (⟨E.column.drop ex⟩ : Row) S
    (Q.length + M.length + 1)
    (by simp only [List.length_append, List.length_cons]; omega)]
  rw [deleteCharsNoneGo_append]
  obtain ⟨c, u, hmid2⟩ := dcn_go_middles sx Q.length ex
    (Q.length + M.length + 1) M (Q ++ [R]) S
    ([] ++ [(⟨E.column.take ex⟩ : Row)]) (⟨E.column.drop ex⟩ : Row)
    { b with cached := true,
             updated := b.updated ++
               [(Q.length + M.length + 1,
                 ((Q ++ R :: M) ++ (⟨E.column.drop ex⟩ : Row) :: S).length)],
             rows := (Q ++ R :: M) ++ S }
    (by simp) (by simp) (by simp only [List.length_append, List.length_cons, List.length_nil]; omega)
  rw [show (Q ++ [R]).length = Q.length + 1 from by simp] at hmid2
  rw [hmid2]
  rw [dcn_go_sy sx Q.length ex (Q.length + M.length + 1) Q S _ R _ _
    (by simp) rfl]
  dsimp only
  refine ⟨{ b with cached := c,
                   updated := u,
                   rows := Q ++ (⟨R.column.take sx ++ E.column.drop ex⟩ : Row)
                     :: S },
    ?_, rfl, rfl, rfl, rfl⟩
  rw [show ([] ++ [(⟨E.column.take ex⟩ : Row)]) ++ M.reverse ++
      [(⟨R.column.drop sx⟩ : Row)]
      = (⟨E.column.take ex⟩ : Row) ::
          (M.reverse ++ [(⟨R.column.drop sx⟩ : Row)]) from by simp]

theorem dcn_char_trunc (sx ex ey : Nat) (Q M : List Row) (R : Row)
    (b : Buffer) (hrows : b.rows = Q ++ R :: M)
    (hey : Q.length + M.length < ey) :
    ∃ b',
      b.deleteCharsNone (sx, Q.length) (ex, ey)
        = (M.reverse ++ [(⟨R.column.drop sx⟩ : Row)], b')
      ∧ b'.rows = Q ++ [(⟨R.column.take sx⟩ : Row)]
      ∧ b'.filename = b.filename ∧ b'.history = b.history
      ∧ b'.pending = b.pending := by
  have hlenrows : b.rows.length = Q.length + M.length + 1 := by
    rw [hrows]
    simp only [List.length_append, List.length_cons]
    omega
  have hsplit : List.range' Q.length (ey + 1 - Q.length)
      = (Q.length :: List.range' (Q.length + 1) M.length)
        ++ List.range' (Q.length + M.length + 1)
             (ey + 1 - (Q.length + M.length + 1)) := by
    rw [show (Q.length :: List.range' (Q.length + 1) M.length)
        = List.range' Q.length (M.length + 1) from (List.range'_succ _ _ _).symm]
    rw [show ey + 1 - Q.length
        = (ey + 1 - (Q.length + M.length + 1)) + (M.length + 1) from by omega]
    rw [← List.range'_append]
    rw [show Q.length + 1 * (M.length + 1) = Q.length + M.length + 1 from by omega]
  unfold Buffer.deleteCharsNone
  dsimp only
  rw [if_neg (show ¬ (Q.length = ey) from by omega)]
  rw [hsplit]
  rw [List.reverse_append]
  rw [deleteCharsNoneGo_append]
  rw [dcn_go_oob sx Q.length ex ey _ b [] default
    (fun i hi => by
      rw [hlenrows]
      have := List.mem_range'_1.1 (List.mem_reverse.1 hi)
      omega)]
  rw [show (Q.length :: List.range' (Q.length + 1) M.length).reverse
      = (List.range' (Q.length + 1) M.length).reverse ++ [Q.length] from by simp]
  rw [deleteCharsNoneGo_append]
  obtain ⟨c, u, hmid2⟩ := dcn_go_middles sx Q.length ex ey M (Q ++ [R])
    ([] : List Row) ([] : List Row) (default : Row) b
    (by rw [hrows]; simp) (by simp)
    (by simp only [List.length_append, List.length_cons, List.length_nil]; omega)
  rw [show (Q ++ [R]).length = Q.length + 1 from by simp] at hmid2
  rw [hmid2]
  rw [dcn_go_sy sx Q.length ex ey Q ([] : List Row) _ R _ _ (by simp) rfl]
  dsimp only
  refine ⟨{ b with cached := c,
                   updated := u,
                   rows := Q ++ (⟨R.column.take sx ++ (default : Row).column⟩
                     : Row) :: [] },
    ?_, ?_, rfl, rfl, rfl⟩
  · rw [show ([] : List Row) ++ M.reverse ++ [(⟨R.column.drop sx⟩ : Row)]
        = M.reverse ++ [(⟨R.column.drop sx⟩ : Row)] from by simp]
  · simp [show (default : Row).column = [] from rfl]

theorem dcn_same (sx ex : Nat) (Q S : List Row) (R : Row) (b : Buffer)
    (hrows : b.rows = Q ++ R :: S) (hlt : sx < R.len) (hex : ex ≤ R.len) :
    b.deleteCharsNone (sx, Q.length) (ex, Q.length)
      = ([(⟨(R.column.take ex).drop sx⟩ : Row)],
         { b with rows :=
             Q ++ (⟨R.column.take sx ++ R.column.drop ex⟩ : Row) :: S }) := by
  have hget : b.rows[Q.length]? = some R := by
    rw [hrows]
    exact getElem?_append_len Q R S
  have hrem : R.removeRange sx ex
      = some ((R.column.take ex).drop sx,
              (⟨R.column.take sx ++ R.column.drop ex⟩ : Row)) := by
    unfold Row.removeRange
    rw [if_pos (show ex ≤ R.column.length from hex)]
  unfold Buffer.deleteCharsNone
  dsimp only
  rw [if_pos rfl]
  rw [hget]
  dsimp only
  rw [if_pos hlt]
  rw [hrem]
  dsimp only
  rw [hrows, set_append_len]

theorem undo_fst (b : Buffer) (cur : Nat × Nat) (op : Operation)
    (rest : List ((Nat × Nat) × Operation))
    (h : b.history = (cur, op) :: rest) : (b.undo).1 = some cur := by
  unfold Buffer.undo
  rw [h]

theorem undo_snd_deleteChars (b : Buffer) (cur cord : Nat × Nat)
    (rows : List Row) (mode : SelectMode)
    (rest : List ((Nat × Nat) × Operation))
    (h : b.history = (cur, .DeleteChars cord rows mode) :: rest) :
    (b.undo).2 = (({ b with history := rest, cached := true
                   }).insertCharsBypass cord rows mode).2 := by
  unfold Buffer.undo
  rw [h]

theorem undo_snd_insertChars (b : Buffer) (cur cord endc : Nat × Nat)
    (mode : SelectMode) (rest : List ((Nat × Nat) × Operation))
    (h : b.history = (cur, .InsertChars cord endc mode) :: rest) :
    (b.undo).2 = (({ b with history := rest, cached := true
                   }).deleteCharsBypass cord endc mode).2 := by
  unfold Buffer.undo
  rw [h]

theorem deleteChars_none_eq (b : Buffer) (s e : Nat × Nat) (rs : List Row)
    (b1 : Buffer) (h : b.deleteCharsNone s e = (rs, b1))
    (hne : rs.isEmpty = false) :
    b.deleteChars s e .None
      = { b1 with cached := true,
                  pending := some (rs.reverse, SelectMode.None),
                  updated := b1.updated ++ [if rs.reverse.length = 1 then (s.2, s.2 + 1) else (s.2, b1.rows.length)],
                  history := (s, .DeleteChars s rs.reverse .None) :: b1.history } := by
  unfold Buffer.deleteChars Buffer.deleteCharsBypass
  dsimp only
  rw [h]
  dsimp only
  rw [hne]
  rw [if_neg (show ¬ (false = true) from by simp)]
  rfl

theorem insertChars_none_eq (b : Buffer) (at_ : Nat × Nat) (rows : List Row)
    (endc : Nat × Nat) (b1 : Buffer)
    (h : b.insertCharsNone at_ rows = (some endc, b1)) (hne : at_ ≠ endc) :
    b.insertChars at_ rows .None
      = (some endc,
         { b1 with updated := b1.updated ++ [if at_.2 = endc.2 then (at_.2, endc.2 + 1) else (at_.2, b1.rows.length)],
                   history := (at_, .InsertChars at_ endc .None) :: b1.history }) := by
  unfold Buffer.insertChars Buffer.insertCharsBypass
  dsimp only
  rw [h]
  dsimp only
  rw [if_neg hne]
  dsimp only
  rfl

theorem insertCharsBypass_none_rows (b : Buffer) (at_ : Nat × Nat)
    (rows : List Row) :
    ((b.insertCharsBypass at_ rows .None).2).rows
      = ((b.insertCharsNone at_ rows).2).rows := by
  unfold Buffer.insertCharsBypass
  dsimp only
  cases hic : b.insertCharsNone at_ rows with
  | mk endOpt b1 =>
      cases endOpt with
      | none => rfl
      | some endc =>
          dsimp only
          by_cases hc : at_ = endc
          · rw [if_pos hc]
          · rw [if_neg hc]

theorem deleteCharsBypass_none_rows (b : Buffer) (s e : Nat × Nat) :
    ((b.deleteCharsBypass s e .None).2).rows
      = ((b.deleteCharsNone s e).2).rows := by
  unfold Buffer.deleteCharsBypass
  dsimp only
  cases hdc : b.deleteCharsNone s e with
  | mk rs b1 =>
      dsimp only
      by_cases he : rs.isEmpty
      · rw [if_pos he]
      · rw [if_neg he]

theorem insertCharsNone_single_rows (sx sy : Nat) (Q S : List Row) (T f : Row)
    (b : Buffer) (hrows : b.rows = Q ++ T :: S) (hsx : sx ≤ T.len)
    (hsy : sy = Q.length) :
    ((b.insertCharsBypass (sx, sy) [f] .None).2).rows
      = Q ++ (T.insertSlice sx f.column) :: S := by
  subst hsy
  rw [insertCharsBypass_none_rows]
  rw [insertCharsNone_single sx Q S T f b hrows hsx]

theorem insertCharsNone_char_rows (sx sy : Nat) (Q S M : List Row)
    (T f lst : Row) (b : Buffer) (hrows : b.rows = Q ++ T :: S)
    (hsx : sx ≤ T.len) (hsy : sy = Q.length) :
    ((b.insertCharsBypass (sx, sy) (f :: (M ++ [lst])) .None).2).rows
      = Q ++ (⟨T.column.take sx ++ f.column⟩ : Row) ::
          (M ++ (⟨lst.column ++ T.column.drop sx⟩ : Row) :: S) := by
  subst hsy
  rw [insertCharsBypass_none_rows]
  obtain ⟨b', hins, hrows', _, _, _⟩ :=
    insertCharsNone_char sx Q S M T f lst b hrows hsx
  rw [hins]
  exact hrows'

theorem dcn_same_rows (sx ex sy : Nat) (Q S : List Row) (R : Row)
    (b : Buffer) (hrows : b.rows = Q ++ R :: S) (hlt : sx < R.len)
    (hex : ex ≤ R.len) (hsy : sy = Q.length) :
    ((b.deleteCharsBypass (sx, sy) (ex, sy) .None).2).rows
      = Q ++ (⟨R.column.take sx ++ R.column.drop ex⟩ : Row) :: S := by
  subst hsy
  rw [deleteCharsBypass_none_rows]
  rw [dcn_same sx ex Q S R b hrows hlt hex]

theorem dcn_full_rows (sx ex sy ey : Nat) (Q M S : List Row) (R E : Row)
    (b : Buffer) (hrows : b.rows = Q ++ R :: (M ++ E :: S)) (hex : ex ≤ E.len)
    (hsy : sy = Q.length) (hey : ey = Q.length + M.length + 1) :
    ((b.deleteCharsBypass (sx, sy) (ex, ey) .None).2).rows
      = Q ++ (⟨R.column.take sx ++ E.column.drop ex⟩ : Row) :: S := by
  subst hsy
  subst hey
  rw [deleteCharsBypass_none_rows]
  obtain ⟨b', hdc, hrows', _, _, _⟩ := dcn_char_full sx ex Q M S R E b hrows hex
  rw [hdc]
  exact hrows'

theorem undo_deleteChars_none (b : Buffer) (sx sy ex ey : Nat) (R : Row)
    (hget : b.rows[sy]? = some R)
    (hle : sy ≤ ey)
    (hord : sy = ey → sx ≤ ex)
    (hsx : sx ≤ R.len)
    (hsame : sy = ey → sx < R.len)
    (hex : ∀ E, b.rows[ey]? = some E → ex ≤ E.len) :
    ((b.deleteChars (sx, sy) (ex, ey) .None).undo).1 = some (sx, sy) ∧
    ((b.deleteChars (sx, sy) (ex, ey) .None).undo).2.rows = b.rows := by
  have hlenR : R.column.length = R.len := rfl
  rcases Nat.eq_or_lt_of_le hle with heq | hltc
  · -- same-row case
    subst heq
    obtain ⟨Q, S, hb, hQ⟩ :
        ∃ Q S, b.rows = Q ++ R :: S ∧ Q.length = sy := by
      obtain ⟨h1, h2⟩ := decomp_of_getElem? b.rows sy R hget
      exact ⟨_, _, h1, h2⟩
    subst hQ
    have hlt' : sx < R.len := hsame rfl
    have hex' : ex ≤ R.len := hex R hget
    have hsxex : sx ≤ ex := hord rfl
    have hdc := dcn_same sx ex Q S R b hb hlt' hex'
    have hDC := deleteChars_none_eq b (sx, Q.length) (ex, Q.length)
      [(⟨(R.column.take ex).drop sx⟩ : Row)] _ hdc rfl
    constructor
    · rw [hDC]
      exact undo_fst _ _ _ _ rfl
    · rw [hDC]
      rw [undo_snd_deleteChars _ _ _ _ _ _ rfl]
      rw [show ([(⟨(R.column.take ex).drop sx⟩ : Row)]).reverse
          = [(⟨(R.column.take ex).drop sx⟩ : Row)] from by simp]
      rw [insertCharsNone_single_rows sx Q.length Q S
        (⟨R.column.take sx ++ R.column.drop ex⟩ : Row)
        (⟨(R.column.take ex).drop sx⟩ : Row) _ rfl
        (by simp [Row.len]; omega) rfl]
      dsimp only
      have hrow : Row.insertSlice (⟨R.column.take sx ++ R.column.drop ex⟩ : Row)
          sx ((R.column.take ex).drop sx) = R := by
        unfold Row.insertSlice
        rw [if_pos (by simp; omega)]
        dsimp only
        rw [take_append_len (R.column.take sx) (R.column.drop ex) sx
          (by rw [List.length_take]; omega)]
        rw [drop_append_len (R.column.take sx) (R.column.drop ex) sx
          (by rw [List.length_take]; omega)]
        rw [show R.column.take sx ++ (R.column.take ex).drop sx
            = R.column.take ex from by
          conv_lhs => rw [show R.column.take sx = (R.column.take ex).take sx
            from by rw [List.take_take, Nat.min_eq_left hsxex]]
          exact List.take_append_drop sx (R.column.take ex)]
        rw [List.take_append_drop]
      rw [hrow]
      exact hb.symm
  · -- multi-row
    rcases Nat.lt_or_ge ey b.rows.length with heyb | heyb
    · -- end row exists
      cases hgetE : b.rows[ey]? with
      | none =>
          rw [List.getElem?_eq_none_iff] at hgetE
          omega
      | some E =>
          have hexE : ex ≤ E.len := hex E hgetE
          obtain ⟨Q, M, S, hb, hQ, hey'⟩ :
              ∃ Q M S, b.rows = Q ++ R :: (M ++ E :: S) ∧ Q.length = sy
                ∧ ey = Q.length + M.length + 1 := by
            obtain ⟨h1, h2⟩ := decomp_of_getElem? b.rows sy R hget
            have hdropget : (b.rows.drop (sy + 1))[ey - (sy + 1)]? = some E := by
              rw [List.getElem?_drop]
              rw [show sy + 1 + (ey - (sy + 1)) = ey from by omega]
              exact hgetE
            obtain ⟨h3, h4⟩ := decomp_of_getElem? (b.rows.drop (sy + 1))
              (ey - (sy + 1)) E hdropget
            refine ⟨_, _, _,
              h1.trans (congrArg (fun l => b.rows.take sy ++ R :: l) h3),
              h2, by omega⟩
          subst hQ
          subst hey'
          obtain ⟨b', hdc, hrows', _, _, _⟩ :=
            dcn_char_full sx ex Q M S R E b hb hexE
          have hDC := deleteChars_none_eq b (sx, Q.length)
            (ex, Q.length + M.length + 1) _ b' hdc rfl
          constructor
          · rw [hDC]
            exact undo_fst _ _ _ _ rfl
          · rw [hDC]
            rw [undo_snd_deleteChars _ _ _ _ _ _ rfl]
            rw [show ((⟨E.column.take ex⟩ : Row) ::
                  (M.reverse ++ [(⟨R.column.drop sx⟩ : Row)])).reverse
                = (⟨R.column.drop sx⟩ : Row) ::
                  (M ++ [(⟨E.column.take ex⟩ : Row)]) from by simp]
            rw [insertCharsNone_char_rows sx Q.length Q S M
              (⟨R.column.take sx ++ E.column.drop ex⟩ : Row)
              (⟨R.column.drop sx⟩ : Row) (⟨E.column.take ex⟩ : Row) _
              (by exact hrows') (by simp [Row.len]; omega) rfl]
            dsimp only
            rw [take_append_len (R.column.take sx) (E.column.drop ex) sx
              (by rw [List.length_take]; omega)]
            rw [drop_append_len (R.column.take sx) (E.column.drop ex) sx
              (by rw [List.length_take]; omega)]
            rw [List.take_append_drop sx R.column]
            rw [List.take_append_drop ex E.column]
            exact hb.symm
    · -- end row past the buffer
      obtain ⟨Q, M, hb, hQ⟩ :
          ∃ Q M, b.rows = Q ++ R :: M ∧ Q.length = sy := by
        obtain ⟨h1, h2⟩ := decomp_of_getElem? b.rows sy R hget
        exact ⟨_, _, h1, h2⟩
      subst hQ
      have hlenb : b.rows.length = Q.length + M.length + 1 := by
        rw [hb]
        simp only [List.length_append, List.length_cons]
        omega
      have hey2 : Q.length + M.length < ey := by omega
      obtain ⟨b', hdc, hrows', _, _, _⟩ :=
        dcn_char_trunc sx ex ey Q M R b hb hey2
      have hDC := deleteChars_none_eq b (sx, Q.length) (ex, ey) _ b' hdc
        (by simp)
      constructor
      · rw [hDC]
        exact undo_fst _ _ _ _ rfl
      · rw [hDC]
        rw [undo_snd_deleteChars _ _ _ _ _ _ rfl]
        rw [show (M.reverse ++ [(⟨R.column.drop sx⟩ : Row)]).reverse
            = (⟨R.column.drop sx⟩ : Row) :: M from by simp]
        rcases List.eq_nil_or_concat M with hM | ⟨M', lst, hM⟩
        · subst hM
          rw [insertCharsNone_single_rows sx Q.length Q ([] : List Row)
            (⟨R.column.take sx⟩ : Row) (⟨R.column.drop sx⟩ : Row) _
            (by exact hrows') (by simp [Row.len]; omega) rfl]
          dsimp only
          have hrow : Row.insertSlice (⟨R.column.take sx⟩ : Row) sx
              (R.column.drop sx) = R := by
            unfold Row.insertSlice
            rw [if_pos (by simp; omega)]
            dsimp only
            rw [show (R.column.take sx).take sx = R.column.take sx from by
              rw [List.take_take, Nat.min_self]]
            rw [show (R.column.take sx).drop sx = ([] : List Char) from
              List.drop_eq_nil_of_le (by simp)]
            rw [List.append_nil, List.take_append_drop]
          rw [hrow]
          exact hb.symm
        · have hM2 : M = M' ++ [lst] := by rw [hM, List.concat_eq_append]
          subst hM2
          rw [insertCharsNone_char_rows sx Q.length Q ([] : List Row) M'
            (⟨R.column.take sx⟩ : Row) (⟨R.column.drop sx⟩ : Row) lst _
            (by exact hrows') (by simp [Row.len]; omega) rfl]
          dsimp only
          rw [show (R.column.take sx).take sx = R.column.take sx from by
            rw [List.take_take, Nat.min_self]]
          rw [show (R.column.take sx).drop sx = ([] : List Char) from
            List.drop_eq_nil_of_le (by simp)]
          rw [List.take_append_drop sx R.column]
          rw [List.append_nil]
          exact hb.symm

theorem undo_insertChars_none (b : Buffer) (sx sy : Nat) (rows : List Row)
    (T : Row) (hget : b.rows[sy]? = some T) (hx : sx ≤ T.len)
    (hshape : (∃ f, rows = [f] ∧ 0 < f.len) ∨ 1 < rows.length) :
    (((b.insertChars (sx, sy) rows .None).2).undo).1 = some (sx, sy) ∧
    (((b.insertChars (sx, sy) rows .None).2).undo).2.rows = b.rows := by
  have hlenT : T.column.length = T.len := rfl
  obtain ⟨Q, S, hb, hQ⟩ :
      ∃ Q S, b.rows = Q ++ T :: S ∧ Q.length = sy := by
    obtain ⟨h1, h2⟩ := decomp_of_getElem? b.rows sy T hget
    exact ⟨_, _, h1, h2⟩
  subst hQ
  rcases hshape with ⟨f, hfr, hflen⟩ | h2r
  · -- single-row insert
    subst hfr
    have hflc : f.column.length = f.len := rfl
    have hins := insertCharsNone_single sx Q S T f b hb hx
    have hne : ((sx, Q.length) : Nat × Nat) ≠ (sx + f.len, Q.length) := by
      simp
      omega
    have hIC := insertChars_none_eq b (sx, Q.length) [f]
      (sx + f.len, Q.length) _ hins hne
    have hR : (T.insertSlice sx f.column).column
        = (T.column.take sx ++ f.column) ++ T.column.drop sx := by
      unfold Row.insertSlice
      rw [if_pos (show sx ≤ T.column.length from by omega)]
    constructor
    · rw [hIC]
      exact undo_fst _ _ _ _ rfl
    · rw [hIC]
      rw [undo_snd_insertChars _ _ _ _ _ _ rfl]
      rw [dcn_same_rows sx (sx + f.len) Q.length Q S
        (T.insertSlice sx f.column) _ rfl
        (by show sx < (T.insertSlice sx f.column).column.length
            rw [hR]; simp; omega)
        (by show sx + f.len ≤ (T.insertSlice sx f.column).column.length
            rw [hR]; simp; omega)
        rfl]
      rw [hR]
      rw [show ((T.column.take sx ++ f.column) ++ T.column.drop sx).take sx
          = T.column.take sx from by
        rw [List.append_assoc]
        exact take_append_len _ _ sx (by rw [List.length_take]; omega)]
      rw [drop_append_len (T.column.take sx ++ f.column) (T.column.drop sx)
        (sx + f.len)
        (by simp only [List.length_append, List.length_take]; omega)]
      rw [List.take_append_drop]
      exact hb.symm
  · -- multi-row insert
    rcases rows with _ | ⟨f, rest⟩
    · simp at h2r
    rcases List.eq_nil_or_concat rest with hr | ⟨M, lst, hr⟩
    · subst hr
      simp at h2r
    have hr2 : rest = M ++ [lst] := by rw [hr, List.concat_eq_append]
    subst hr2
    obtain ⟨b2, hins, hrows2, _, _, _⟩ :=
      insertCharsNone_char sx Q S M T f lst b hb hx
    have hne : ((sx, Q.length) : Nat × Nat)
        ≠ (lst.len, Q.length + M.length + 1) := by
      simp
      omega
    have hIC := insertChars_none_eq b (sx, Q.length) (f :: (M ++ [lst]))
      (lst.len, Q.length + M.length + 1) b2 hins hne
    constructor
    · rw [hIC]
      exact undo_fst _ _ _ _ rfl
    · rw [hIC]
      rw [undo_snd_insertChars _ _ _ _ _ _ rfl]
      rw [dcn_full_rows sx lst.len Q.length (Q.length + M.length + 1) Q M S
        (⟨T.column.take sx ++ f.column⟩ : Row)
        (⟨lst.column ++ T.column.drop sx⟩ : Row) _
        (by exact hrows2)
        (by show lst.len ≤ (lst.column ++ T.column.drop sx).length
            have hll : lst.column.length = lst.len := rfl
            simp
            omega)
        rfl rfl]
      dsimp only
      rw [take_append_len (T.column.take sx) f.column sx
        (by rw [List.length_take]; omega)]
      rw [drop_append_len lst.column (T.column.drop sx) lst.len rfl]
      rw [List.take_append_drop]
      exact hb.symm

/-- C1: every recording mutation of the buffer, followed by one `undo`,
restores the row contents and returns `some` of the record-time cursor, and
`undo` on an empty history returns `none` leaving the buffer unchanged —
provable for `append_row`, `delete_char`, `delete_row`, `insert_char`,
`insert_row`, `replace`, `shrink_row`, `split_row`, `squash_row` under their
in-range preconditions, and for `delete_chars`/`insert_chars` in
`SelectMode::None` under ordered, clamped coordinates.  (The claim as stated
over ALL recording mutations is refuted by the Rectangle select mode: a
rectangle delete past the end of a short row records an entry whose undo
pads the row with spaces — see the counterexample.) -/
theorem undo_restores_recording_mutations :
    (∀ b : Buffer, b.history = [] → b.undo = (none, b)) ∧
    (∀ (b : Buffer) (at_ : Nat × Nat) (text : List Char) (r : Row),
      b.rows[at_.2]? = some r →
      ((b.appendRow at_ text).undo).1 = some at_ ∧
      ((b.appendRow at_ text).undo).2.rows = b.rows) ∧
    (∀ (b : Buffer) (at_ : Nat × Nat) (r : Row),
      b.rows[at_.2]? = some r → 0 < at_.1 → at_.1 ≤ r.len →
      ((b.deleteChar at_).undo).1 = some at_ ∧
      ((b.deleteChar at_).undo).2.rows = b.rows) ∧
    (∀ (b : Buffer) (sx sy ex ey : Nat) (R : Row),
      b.rows[sy]? = some R → sy ≤ ey → (sy = ey → sx ≤ ex) → sx ≤ R.len →
      (sy = ey → sx < R.len) → (∀ E, b.rows[ey]? = some E → ex ≤ E.len) →
      ((b.deleteChars (sx, sy) (ex, ey) .None).undo).1 = some (sx, sy) ∧
      ((b.deleteChars (sx, sy) (ex, ey) .None).undo).2.rows = b.rows) ∧
    (∀ (b : Buffer) (at_ : Nat × Nat) (r : Row),
      b.rows[at_.2]? = some r →
      (((b.deleteRow at_).2).undo).1 = some at_ ∧
      (((b.deleteRow at_).2).undo).2.rows = b.rows) ∧
    (∀ (b : Buffer) (at_ : Nat × Nat) (ch : Char) (r : Row),
      b.rows[at_.2]? = some r → at_.1 ≤ r.len →
      ((b.insertChar at_ ch).undo).1 = some at_ ∧
      ((b.insertChar at_ ch).undo).2.rows = b.rows) ∧
    (∀ (b : Buffer) (sx sy : Nat) (rows : List Row) (T : Row),
      b.rows[sy]? = some T → sx ≤ T.len →
      ((∃ f, rows = [f] ∧ 0 < f.len) ∨ 1 < rows.length) →
      (((b.insertChars (sx, sy) rows .None).2).undo).1 = some (sx, sy) ∧
      (((b.insertChars (sx, sy) rows .None).2).undo).2.rows = b.rows) ∧
    (∀ (b : Buffer) (at_ : Nat × Nat) (text : List Char),
      at_.2 ≤ b.rowsLen →
      ((b.insertRow at_ text).undo).1 = some at_ ∧
      ((b.insertRow at_ text).undo).2.rows = b.rows) ∧
    (∀ (b : Buffer) (at_ : Nat × Nat) (length : Nat) (text : List Char)
      (r : Row),
      b.rows[at_.2]? = some r → at_.1 + length ≤ r.len →
      (((b.replace at_ length text).2).undo).1 = some at_ ∧
      (((b.replace at_ length text).2).undo).2.rows = b.rows) ∧
    (∀ (b : Buffer) (at_ : Nat × Nat) (r : Row),
      b.rows[at_.2]? = some r → at_.1 ≤ r.len →
      ((b.shrinkRow at_).undo).1 = some at_ ∧
      ((b.shrinkRow at_).undo).2.rows = b.rows) ∧
    (∀ (b : Buffer) (at_ : Nat × Nat) (r : Row),
      b.rows[at_.2]? = some r → at_.1 ≤ r.len →
      ((b.splitRow at_).undo).1 = some at_ ∧
      ((b.splitRow at_).undo).2.rows = b.rows) ∧
    (∀ (b : Buffer) (at_ : Nat × Nat) (ry prev : Row),
      b.rows[at_.2]? = some ry → b.rows[at_.2 - 1]? = some prev → 0 < at_.2 →
      ((b.squashRow at_).undo).1 = some at_ ∧
      ((b.squashRow at_).undo).2.rows = b.rows) :=
  ⟨undo_empty, undo_appendRow, undo_deleteChar, undo_deleteChars_none,
   undo_deleteRow, undo_insertChar, undo_insertChars_none, undo_insertRow,
   undo_replace, undo_shrinkRow, undo_splitRow, undo_squashRow⟩

/-- Witness for C1: a concrete two-row delete via `delete_chars`
(`SelectMode::None`) whose undo restores the buffer exactly. -/
theorem undo_restores_recording_mutations_witness :
    (((mkBuf [['a', 'b']]).deleteChars (1, 0) (0, 5) .None).undo).1
      = some (1, 0) ∧
    (((mkBuf [['a', 'b']]).deleteChars (1, 0) (0, 5) .None).undo).2.rows
      = (mkBuf [['a', 'b']]).rows :=
  undo_restores_recording_mutations.2.2.2.1 (mkBuf [['a', 'b']]) 1 0 0 5
    (⟨['a', 'b']⟩ : Row) (by decide) (by decide) (by decide) (by decide)
    (by decide) (fun E _ => Nat.zero_le _)

/-- Counterexample for C1 as frozen: a `SelectMode::Rectangle` delete whose
rectangle lies beyond the end of a short row records a history entry, yet
the subsequent `undo` returns a buffer whose row has been padded with two
spaces instead of the original contents. -/
theorem undo_restores_recording_mutations_counterexample :
    ((mkBuf [['a', 'b']]).deleteChars (3, 0) (4, 0) .Rectangle).history.length
      = 1 ∧
    (((mkBuf [['a', 'b']]).deleteChars (3, 0) (4, 0) .Rectangle).undo).1
      = some (3, 0) ∧
    (((mkBuf [['a', 'b']]).deleteChars (3, 0) (4, 0) .Rectangle).undo).2.rows
      = [(⟨['a', 'b', ' ', ' ']⟩ : Row)] ∧
    (((mkBuf [['a', 'b']]).deleteChars (3, 0) (4, 0) .Rectangle).undo).2.rows
      ≠ (mkBuf [['a', 'b']]).rows := by
  decide

end Note
